import Mathlib

/-!
Verification development for the PoolManager plugin
(Source/PoolManager: PoolManagerSubsystem.cpp, PoolManagerTypes.h/.cpp,
Factories/PoolFactory_UObject.cpp, Data/PoolManagerSettings.h).

The C++ data model and operations are shallowly embedded as executable Lean
definitions.  Conventions used throughout:

* A `UClass` pointer is modelled as the list of class identifiers starting at
  the class itself and walking up the static superclass chain; the empty list
  models a null class pointer, and `GetSuperClass` is the tail of the chain.
* `UObject` pointers are natural-number object identifiers; `Option Nat` is a
  possibly-null object pointer.
* An `FGuid` is a natural number, `0` being the invalid guid.
* A crashing check (`checkf`, `CastChecked`, `GetFactoryChecked`) is modelled
  by an operation returning `none`; a failed `ensureMsgf` only logs in the
  source and execution continues, which is modelled by the corresponding
  early-return or fall-through value of the C++ code.
* Factory hooks and the spawn callbacks carry no interesting data flow of
  their own, so calls to them are recorded as events in an emitted trace.
-/

set_option maxRecDepth 8000

/-- EPoolObjectState from PoolManagerTypes.h: not handled, free in pool, taken. -/
inductive EPoolObjectState : Type
  | None
  | Inactive
  | Active
deriving DecidableEq, Repr

/-- A static class reference: the class identifier followed by the identifiers of
its superclass chain; `[]` models a null class pointer. -/
abbrev UClassRef := List Nat

/-- FPoolObjectHandle: the class of the object and the generated guid hash.
Hash `0` models the invalid guid of the default-constructed handle. -/
structure FPoolObjectHandle where
  objectClass : UClassRef
  hash : Nat
deriving DecidableEq, Repr

instance : Inhabited FPoolObjectHandle := ⟨⟨[], 0⟩⟩

/-- FPoolObjectHandle.EmptyHandle. -/
def emptyHandle : FPoolObjectHandle := ⟨[], 0⟩

/-- FPoolObjectHandle.IsValid: the class is set and the hash is generated. -/
def FPoolObjectHandle.isValid (h : FPoolObjectHandle) : Bool :=
  !(h.objectClass == ([] : List Nat)) && !(h.hash == 0)

/-- The handle equality operator of the source compares the hashes only. -/
def FPoolObjectHandle.sameHash (a b : FPoolObjectHandle) : Bool :=
  a.hash == b.hash

/-- FPoolObjectData from PoolManagerTypes.h. -/
structure FPoolObjectData where
  bIsActive : Bool
  poolObject : Option Nat
  handle : FPoolObjectHandle
deriving DecidableEq, Repr

instance : Inhabited FPoolObjectData := ⟨⟨false, none, ⟨[], 0⟩⟩⟩

/-- FPoolObjectData.IsValid: the object reference and the handle are both set. -/
def FPoolObjectData.isValid (d : FPoolObjectData) : Bool :=
  d.poolObject.isSome && d.handle.isValid

/-- FPoolObjectData.IsFree: valid and not taken. -/
def FPoolObjectData.isFree (d : FPoolObjectData) : Bool :=
  !d.bIsActive && d.isValid

/-- FPoolObjectData.IsActive: valid and taken. -/
def FPoolObjectData.isActiveData (d : FPoolObjectData) : Bool :=
  d.bIsActive && d.isValid

/-- FPoolObjectData.GetState. -/
def FPoolObjectData.getState (d : FPoolObjectData) : EPoolObjectState :=
  if d.bIsActive then EPoolObjectState.Active else EPoolObjectState.Inactive

/-- Modelled from the spec: the declaration of `ESpawnRequestPriority` is not among
the provided sources, only its uses in PoolFactory_UObject.cpp are.  Following the
spec, Critical is the highest priority, then High, then Medium, then Normal, and
the enum comparison used by `RequestSpawn_Implementation` is the numeric one. -/
inductive ESpawnRequestPriority : Type
  | Normal
  | Medium
  | High
  | Critical
deriving DecidableEq, Repr

/-- Numeric value backing the priority enum (higher value, more urgent). -/
def prioVal : ESpawnRequestPriority → Nat
  | ESpawnRequestPriority.Normal => 0
  | ESpawnRequestPriority.Medium => 1
  | ESpawnRequestPriority.High => 2
  | ESpawnRequestPriority.Critical => 3

/-- The enum comparison `<` used inside FindInsertionIndex. -/
def prioLt (a b : ESpawnRequestPriority) : Bool :=
  prioVal a < prioVal b

/-- FSpawnRequest: placement transform (opaque payload), handle and priority.
The two spawn callbacks (OnPreRegistered, OnPostSpawned) are not carried as data;
their invocations are recorded in the emitted event trace instead. -/
structure FSpawnRequest where
  transform : Nat
  handle : FPoolObjectHandle
  priority : ESpawnRequestPriority
deriving DecidableEq, Repr

instance : Inhabited FSpawnRequest :=
  ⟨⟨0, ⟨[], 0⟩, ESpawnRequestPriority.Normal⟩⟩

/-- FSpawnRequest.IsValid: the request is processable when its handle is valid. -/
def FSpawnRequest.isValid (r : FSpawnRequest) : Bool :=
  r.handle.isValid

/-- FSpawnRequest.GetClass: the class stored in the handle. -/
def FSpawnRequest.getObjClass (r : FSpawnRequest) : UClassRef :=
  r.handle.objectClass

/-- Trace events emitted by the factory spawn pipeline. -/
inductive SpawnEvent : Type
  | spawned (h : FPoolObjectHandle)
  | preRegistered (h : FPoolObjectHandle)
  | postSpawned (h : FPoolObjectHandle)
deriving DecidableEq, Repr

/-- The per-factory spawn queue (SpawnQueueInternal). -/
abbrev SpawnQueue := List FSpawnRequest

/-- The FindInsertionIndex lambda of RequestSpawn_Implementation: walk the queue,
stopping at the first entry whose priority compares less than the given one;
the result is the length of the longest prefix of entries that do not. -/
def findInsertionIndex : SpawnQueue → ESpawnRequestPriority → Nat
  | [], _ => 0
  | r :: rest, p => if prioLt r.priority p then 0 else findInsertionIndex rest p + 1

/-- TArray.Insert at the given index (the index never exceeds the length here). -/
def insertAt (r : FSpawnRequest) : Nat → SpawnQueue → SpawnQueue
  | _, [] => [r]
  | 0, q => r :: q
  | n + 1, x :: xs => x :: insertAt r n xs

/-- Events of ProcessRequestNow: SpawnNow creates the object, then the
pre-registration callback runs, then the post-spawn callback runs, all
synchronously and in this order. -/
def processRequestNow (r : FSpawnRequest) : List SpawnEvent :=
  [SpawnEvent.spawned r.handle, SpawnEvent.preRegistered r.handle,
   SpawnEvent.postSpawned r.handle]

/-- Result of one RequestSpawn call: the queue afterwards, the events that ran
synchronously inside the call, and whether a next-tick drain was scheduled. -/
structure RequestSpawnResult where
  queue : SpawnQueue
  events : List SpawnEvent
  scheduledNextTick : Bool
deriving DecidableEq, Repr

/-- The tail of RequestSpawn_Implementation after an insertion: schedule the
next-tick drain exactly when this was the first object in the queue. -/
def afterEnqueue (q : SpawnQueue) : RequestSpawnResult :=
  ⟨q, [], q.length == 1⟩

/-- RequestSpawn_Implementation: invalid requests are rejected by the ensure;
Critical is processed synchronously and never enqueued; High and Medium are
inserted at the priority-based index; Normal is appended at the end. -/
def requestSpawn (q : SpawnQueue) (r : FSpawnRequest) : RequestSpawnResult :=
  if !r.isValid then ⟨q, [], false⟩
  else
    match r.priority with
    | ESpawnRequestPriority.Critical => ⟨q, processRequestNow r, false⟩
    | ESpawnRequestPriority.High =>
        afterEnqueue (insertAt r (findInsertionIndex q r.priority) q)
    | ESpawnRequestPriority.Medium =>
        afterEnqueue (insertAt r (findInsertionIndex q r.priority) q)
    | ESpawnRequestPriority.Normal => afterEnqueue (q ++ [r])

/-- DequeueSpawnRequest: pop the front request, keeping the order of the rest;
the flag is the validity of the popped request (a failed ensure only logs). -/
def dequeueSpawnRequest : SpawnQueue → Bool × Option FSpawnRequest × SpawnQueue
  | [] => (false, none, [])
  | r :: rest => (r.isValid, some r, rest)

/-- Index of the first queued request whose handle hash equals the given one
(IndexOfByPredicate with the handle equality operator). -/
def findReqIdx : SpawnQueue → FPoolObjectHandle → Option Nat
  | [], _ => none
  | r :: rest, h =>
      if r.handle.hash == h.hash then some 0
      else (findReqIdx rest h).map (· + 1)

/-- DequeueSpawnRequestByHandle: remove the first request matching the handle,
keeping the order of the survivors; false when no request matches. -/
def dequeueSpawnRequestByHandle (q : SpawnQueue) (h : FPoolObjectHandle) :
    Bool × Option FSpawnRequest × SpawnQueue :=
  match findReqIdx q h with
  | none => (false, none, q)
  | some i =>
      let r := q.getD i default
      (r.isValid, some r, q.eraseIdx i)

/-- GetSpawnObjectsPerFrame combined with the clamp at the top of
OnNextTickProcessSpawn_Implementation: a configured value below 1 becomes 1,
and the flag records that the diagnostic ensure fired. -/
def getSpawnRate (cfg : Int) : Nat × Bool :=
  if 1 ≤ cfg then (cfg.toNat, false) else (1, true)

/-- The dequeue-and-process loop of OnNextTickProcessSpawn, run a fixed number
of times; a popped request that fails the validity check is skipped. -/
def spawnLoop : Nat → SpawnQueue → SpawnQueue × List SpawnEvent
  | 0, q => (q, [])
  | n + 1, q =>
      let step := dequeueSpawnRequest q
      let evs :=
        match step.2.1, step.1 with
        | some r, true => processRequestNow r
        | _, _ => []
      let rest := spawnLoop n step.2.2
      (rest.1, evs ++ rest.2)

/-- OnNextTickProcessSpawn_Implementation: process min(rate, length) requests
from the front, then reschedule exactly when the queue is still non-empty. -/
def onNextTickProcessSpawn (cfg : Int) (q : SpawnQueue) :
    SpawnQueue × List SpawnEvent × Bool :=
  let rate := (getSpawnRate cfg).1
  let res := spawnLoop (min rate q.length) q
  (res.1, res.2, !res.1.isEmpty)

/-- Iterated drain ticks, concatenating the per-tick event traces. -/
def drainTicks (cfg : Int) : Nat → SpawnQueue → SpawnQueue × List SpawnEvent
  | 0, q => (q, [])
  | t + 1, q =>
      let one := onNextTickProcessSpawn cfg q
      let rest := drainTicks cfg t one.1
      (rest.1, one.2.1 ++ rest.2)

/-- Submitting a list of requests one by one through RequestSpawn. -/
def enqueueAll (q : SpawnQueue) (rs : List FSpawnRequest) : SpawnQueue :=
  rs.foldl (fun acc r => (requestSpawn acc r).queue) q

/-- The full synchronous trace of processing a list of requests in order. -/
def spawnEvents : SpawnQueue → List SpawnEvent
  | [] => []
  | r :: rest => processRequestNow r ++ spawnEvents rest

/-- Nth entry of an entry array (models reading through a kept pointer or index). -/
def nthEntry : List FPoolObjectData → Nat → Option FPoolObjectData
  | [], _ => none
  | d :: _, 0 => some d
  | _ :: rest, n + 1 => nthEntry rest n

/-- Overwrite the nth entry of an entry array, when the index is in range. -/
def setEntry : List FPoolObjectData → Nat → FPoolObjectData → List FPoolObjectData
  | [], _, _ => []
  | _ :: rest, 0, d => d :: rest
  | x :: rest, n + 1, d => x :: setEntry rest n d

/-- Index of the first free entry (the scan loop of TakeFromPoolOrNull). -/
def findFreeIdx : List FPoolObjectData → Option Nat
  | [] => none
  | d :: rest => if d.isFree then some 0 else (findFreeIdx rest).map (· + 1)

/-- The body of SetObjectStateInPool on the entry array: FindInPool locates the first
entry holding the object; when it is absent or invalid, the ensure fails and nothing
is changed (reported as `none` here); otherwise that entry gets its bIsActive flag
overwritten with the given value. -/
def setStateInEntries (active : Bool) (obj : Nat) :
    List FPoolObjectData → Option (List FPoolObjectData)
  | [] => none
  | d :: rest =>
      if d.poolObject == some obj then
        if d.isValid then some ({ d with bIsActive := active } :: rest) else none
      else (setStateInEntries active obj rest).map (d :: ·)

/-- FPoolContainer: class of the pool, borrowed factory reference (a factory
identifier, `none` being a null factory pointer), and the ordered entry array. -/
structure FPoolContainer where
  objectClass : UClassRef
  factory : Option Nat
  poolObjects : List FPoolObjectData
deriving DecidableEq, Repr

instance : Inhabited FPoolContainer := ⟨⟨[], none, []⟩⟩

/-- Calls into the factory hooks, recorded as an event trace. -/
inductive PoolEvent : Type
  | onTakeFromPool (obj : Nat) (transform : Nat)
  | onReturnToPool (obj : Nat)
  | onChangedState (s : EPoolObjectState) (obj : Nat)
deriving DecidableEq, Repr

/-- The mutable state of UPoolManagerSubsystem: PoolsInternal, and the spawn queue
owned by each factory instance (keyed by the factory identifier). -/
structure PoolManagerState where
  pools : List FPoolContainer
  queues : List (Nat × SpawnQueue)
deriving DecidableEq, Repr

/-- FindPool: first container whose class matches; the ensure rejects a null class. -/
def findPool (pools : List FPoolContainer) (cls : UClassRef) : Option FPoolContainer :=
  if cls == ([] : List Nat) then none
  else pools.find? (fun p => p.objectClass == cls)

/-- FindPoolFactoryChecked: walk the static superclass chain from the class itself
upward and return the factory of the first registered class; reaching the root with
no match is the crashing checkf, modelled as `none`. -/
def findPoolFactoryChecked (factories : List (UClassRef × Nat)) : UClassRef → Option Nat
  | [] => none
  | c :: rest =>
      match List.lookup (c :: rest) factories with
      | some f => some f
      | none => findPoolFactoryChecked factories rest

/-- FindPoolOrAdd, value part: the existing container for the class, else a fresh
container wired to the factory resolved by FindPoolFactoryChecked; `none` models
the crashing checks (null class, unresolvable factory). -/
def findPoolOrAdd? (factories : List (UClassRef × Nat)) (pools : List FPoolContainer)
    (cls : UClassRef) : Option FPoolContainer :=
  if cls == ([] : List Nat) then none
  else
    match findPool pools cls with
    | some p => some p
    | none => (findPoolFactoryChecked factories cls).map (fun f => ⟨cls, some f, []⟩)

/-- Writing back the container FindPoolOrAdd handed out: replace the first container
of that class, or append the freshly created one when the class had no container. -/
def setFirstPool (cls : UClassRef) (p' : FPoolContainer) :
    List FPoolContainer → List FPoolContainer
  | [] => [p']
  | p :: ps => if p.objectClass == cls then p' :: ps else p :: setFirstPool cls p' ps

/-- SetObjectStateInPool: flip the entry state, then notify the factory hook; a null
factory makes GetFactoryChecked crash (`none`); a failed entry lookup only logs and
leaves the pool unchanged with no hook call. -/
def setObjectStateInPool (ns : EPoolObjectState) (obj : Nat) (pool : FPoolContainer) :
    Option (FPoolContainer × List PoolEvent) :=
  match setStateInEntries (ns == EPoolObjectState.Active) obj pool.poolObjects with
  | none => some (pool, [])
  | some entries =>
      match pool.factory with
      | none => none
      | some _ =>
          some ({ pool with poolObjects := entries }, [PoolEvent.onChangedState ns obj])

/-- NewHandle: a fresh handle for the class with the freshly generated guid; a null
class fails the ensure and yields EmptyHandle. -/
def newHandle (cls : UClassRef) (freshHash : Nat) : FPoolObjectHandle :=
  if cls == ([] : List Nat) then emptyHandle else ⟨cls, freshHash⟩

/-- TakeFromPoolOrNull: scan the container of the class for the first free entry;
on a hit, call the on-taken factory hook, transition the entry to Active and return
the entry the kept pointer now refers to; on a miss or a missing pool, change
nothing and return null. -/
def takeFromPoolOrNull (st : PoolManagerState) (cls : UClassRef) (tf : Nat) :
    Option (Option FPoolObjectData × PoolManagerState × List PoolEvent) :=
  if cls == ([] : List Nat) then some (none, st, [])
  else
    match findPool st.pools cls with
    | none => some (none, st, [])
    | some pool =>
        match findFreeIdx pool.poolObjects with
        | none => some (none, st, [])
        | some i =>
            match nthEntry pool.poolObjects i with
            | none => none
            | some found =>
                match found.poolObject with
                | none => none
                | some obj =>
                    match pool.factory with
                    | none => none
                    | some _ =>
                        match setObjectStateInPool EPoolObjectState.Active obj pool with
                        | none => none
                        | some res =>
                            some (nthEntry res.1.poolObjects i,
                                  { st with pools := setFirstPool cls res.1 st.pools },
                                  PoolEvent.onTakeFromPool obj tf :: res.2)

/-- ReturnToPool_Implementation (object overload): a null object fails the ensure;
otherwise the pool for the dynamic class is found or created, the on-returned hook
runs, the entry transitions to Inactive when registered, and true is returned. -/
def returnToPool_obj (factories : List (UClassRef × Nat)) (st : PoolManagerState)
    (o : Option Nat) (cls : UClassRef) : Option (Bool × PoolManagerState × List PoolEvent) :=
  match o with
  | none => some (false, st, [])
  | some obj =>
      match findPoolOrAdd? factories st.pools cls with
      | none => none
      | some pool =>
          match pool.factory with
          | none => none
          | some _ =>
              match setObjectStateInPool EPoolObjectState.Inactive obj pool with
              | none => none
              | some res =>
                  some (true, { st with pools := setFirstPool cls res.1 st.pools },
                        PoolEvent.onReturnToPool obj :: res.2)

/-- Queue owned by a factory instance (an absent factory key owns an empty queue). -/
def getQueue (queues : List (Nat × SpawnQueue)) (f : Nat) : SpawnQueue :=
  match List.lookup f queues with
  | some q => q
  | none => []

/-- Overwrite the queue owned by a factory instance. -/
def setQueue (queues : List (Nat × SpawnQueue)) (f : Nat) (q : SpawnQueue) :
    List (Nat × SpawnQueue) :=
  queues.map (fun p => if p.1 == f then (f, q) else p)

/-- ReturnToPool (handle overload): an invalid handle fails the ensure; a handle
resolving to a live entry forwards to the object overload (entries are registered
under their dynamic class, which equals the container class on every registration
path, so the container class is passed on); otherwise the pending spawn request
with that handle is dequeued from the factory queue, reporting success or not. -/
def returnToPool_hdl (factories : List (UClassRef × Nat)) (st : PoolManagerState)
    (h : FPoolObjectHandle) : Option (Bool × PoolManagerState × List PoolEvent) :=
  if !h.isValid then some (false, st, [])
  else
    match findPoolOrAdd? factories st.pools h.objectClass with
    | none => none
    | some pool =>
        let st1 : PoolManagerState :=
          { st with pools := setFirstPool h.objectClass pool st.pools }
        match pool.poolObjects.find? (fun d => d.handle.hash == h.hash) with
        | some od => returnToPool_obj factories st1 od.poolObject pool.objectClass
        | none =>
            match pool.factory with
            | none => none
            | some f =>
                let dq := dequeueSpawnRequestByHandle (getQueue st1.queues f) h
                some (dq.1, { st1 with queues := setQueue st1.queues f dq.2.2 }, [])

/-- RegisterObjectInPool_Implementation: a null object fails the ensure; an object
already present in the pool of its class is rejected with no further effect; else
the entry is appended (a fresh handle is generated when the supplied one is
invalid) and the activation state hook is applied through SetObjectStateInPool.
The class argument is the dynamic class of the object; `freshHash` is the guid
NewHandle would generate. -/
def registerObjectInPool (factories : List (UClassRef × Nat)) (st : PoolManagerState)
    (data : FPoolObjectData) (cls : UClassRef) (freshHash : Nat) :
    Option (Bool × PoolManagerState × List PoolEvent) :=
  match data.poolObject with
  | none => some (false, st, [])
  | some obj =>
      match findPoolOrAdd? factories st.pools cls with
      | none => none
      | some pool =>
          match pool.poolObjects.find? (fun d => d.poolObject == some obj) with
          | some _ => some (false, { st with pools := setFirstPool cls pool st.pools }, [])
          | none =>
              let dta := if data.handle.isValid then data
                         else { data with handle := newHandle cls freshHash }
              let pool1 := { pool with poolObjects := pool.poolObjects ++ [dta] }
              match setObjectStateInPool dta.getState obj pool1 with
              | none => none
              | some res =>
                  some (true, { st with pools := setFirstPool cls res.1 st.pools }, res.2)

/-- GetFreeObjectsNum_Implementation: free entries of the class, 0 without a pool. -/
def getFreeObjectsNum (pools : List FPoolContainer) (cls : UClassRef) : Nat :=
  match findPool pools cls with
  | none => 0
  | some pool => pool.poolObjects.countP (fun d => d.isFree)

/-- GetRegisteredObjectsNum_Implementation: valid entries, 0 without a pool. -/
def getRegisteredObjectsNum (pools : List FPoolContainer) (cls : UClassRef) : Nat :=
  match findPool pools cls with
  | none => 0
  | some pool => pool.poolObjects.countP (fun d => d.isValid)

/-- FindPoolObjectByHandle: the entry the handle resolves to, or EmptyObject when
the pool or the entry is absent (FindInPool rejects invalid handles). -/
def findPoolObjectByHandle (pools : List FPoolContainer) (h : FPoolObjectHandle) :
    FPoolObjectData :=
  match findPool pools h.objectClass with
  | none => default
  | some pool =>
      if !h.isValid then default
      else
        match pool.poolObjects.find? (fun d => d.handle.hash == h.hash) with
        | some d => d
        | none => default

/-- State threaded through a batch drain: the subsystem state, the next fresh
object identifier SpawnNow will hand out, and one recorded entry per firing of
the batch completion callback, true when every batch handle resolved to a live
entry at the moment of the firing. -/
structure BatchRun where
  st : PoolManagerState
  nextObj : Nat
  fires : List Bool
deriving DecidableEq, Repr

/-- One batch request drained to completion: SpawnNow materializes a fresh object,
the pre-registration callback installed by CreateNewObjectInPool registers it as
active under the requested class, and the post-spawn callback installed by
CreateNewObjectsArrayInPool compares the handle with the last enqueued one and
fires the single batch completion on a match, after resolving all batch handles. -/
def stepBatch (factories : List (UClassRef × Nat)) (lastH : FPoolObjectHandle)
    (allHs : List FPoolObjectHandle) (br : BatchRun) (r : FSpawnRequest) :
    Option BatchRun :=
  let data : FPoolObjectData := ⟨true, some br.nextObj, r.handle⟩
  match registerObjectInPool factories br.st data r.handle.objectClass 0 with
  | none => none
  | some res =>
      let fired :=
        if r.handle.hash == lastH.hash then
          [allHs.all (fun h => (findPoolObjectByHandle res.2.1.pools h).isValid)]
        else []
      some ⟨res.2.1, br.nextObj + 1, br.fires ++ fired⟩

/-- Drain a list of batch requests in queue order (per-factory FIFO). -/
def runBatch (factories : List (UClassRef × Nat)) (lastH : FPoolObjectHandle)
    (allHs : List FPoolObjectHandle) : List FSpawnRequest → BatchRun → Option BatchRun
  | [], br => some br
  | r :: rs, br =>
      match stepBatch factories lastH allHs br r with
      | none => none
      | some br2 => runBatch factories lastH allHs rs br2

/-!  Lemmas about the drain pipeline. -/

theorem spawnEvents_append (a b : SpawnQueue) :
    spawnEvents (a ++ b) = spawnEvents a ++ spawnEvents b := by
  induction a with
  | nil => simp [spawnEvents]
  | cons r rest ih => simp [spawnEvents, ih]

theorem spawnLoop_valid : ∀ (n : Nat) (q : SpawnQueue),
    (∀ r ∈ q, r.isValid = true) → n ≤ q.length →
    spawnLoop n q = (q.drop n, spawnEvents (q.take n)) := by
  intro n
  induction n with
  | zero => intro q _ _; simp [spawnLoop, spawnEvents]
  | succ n ih =>
    intro q hv hn
    match q with
    | [] => simp at hn
    | r :: rest =>
      have hr : r.isValid = true := hv r (by simp)
      have hrec := ih rest (fun x hx => hv x (by simp [hx])) (by simpa using hn)
      simp [spawnLoop, dequeueSpawnRequest, hr, hrec, spawnEvents]

theorem onNextTick_valid (cfg : Int) (q : SpawnQueue)
    (hv : ∀ r ∈ q, r.isValid = true) :
    onNextTickProcessSpawn cfg q =
      (q.drop (min (getSpawnRate cfg).1 q.length),
       spawnEvents (q.take (min (getSpawnRate cfg).1 q.length)),
       !(q.drop (min (getSpawnRate cfg).1 q.length)).isEmpty) := by
  have h := spawnLoop_valid (min (getSpawnRate cfg).1 q.length) q hv (Nat.min_le_right _ _)
  simp [onNextTickProcessSpawn, h]

theorem drainTicks_valid (cfg : Int) :
    ∀ (t : Nat) (q : SpawnQueue), (∀ r ∈ q, r.isValid = true) →
    drainTicks cfg t q =
      (q.drop (t * (getSpawnRate cfg).1),
       spawnEvents (q.take (t * (getSpawnRate cfg).1))) := by
  intro t
  induction t with
  | zero => intro q _; simp [drainTicks, spawnEvents]
  | succ t ih =>
    intro q hv
    have hvd : ∀ r ∈ q.drop (min (getSpawnRate cfg).1 q.length), r.isValid = true :=
      fun r hr => hv r (List.drop_subset _ _ hr)
    have hrec := ih (q.drop (min (getSpawnRate cfg).1 q.length)) hvd
    simp only [drainTicks, onNextTick_valid cfg q hv, hrec]
    rcases Nat.le_total (getSpawnRate cfg).1 q.length with hle | hle
    · rw [Nat.min_eq_left hle]
      simp only [Prod.mk.injEq]
      refine ⟨?_, ?_⟩
      · rw [List.drop_drop, Nat.succ_mul, Nat.add_comm]
      · rw [← spawnEvents_append, ← List.take_add, Nat.succ_mul, Nat.add_comm]
    · rw [Nat.min_eq_right hle]
      have h1 : q.length ≤ (t + 1) * (getSpawnRate cfg).1 := by
        calc q.length ≤ (getSpawnRate cfg).1 := hle
        _ ≤ (t + 1) * (getSpawnRate cfg).1 := by
              rw [Nat.succ_mul]; exact Nat.le_add_left _ _
      simp only [Prod.mk.injEq]
      refine ⟨?_, ?_⟩
      · rw [List.drop_length, List.drop_nil, List.drop_eq_nil_of_le h1]
      · rw [List.drop_length, List.take_nil, List.take_length,
            List.take_of_length_le h1]
        simp [spawnEvents]

theorem ceil_mul_ge (K N : Nat) (hN : 1 ≤ N) : K ≤ (K + N - 1) / N * N := by
  rcases Nat.eq_zero_or_pos K with hK | hK
  · subst hK; exact Nat.zero_le _
  · have h1 : K + N - 1 = (K - 1) + N := by omega
    have h0 : 0 < N := hN
    rw [h1, Nat.add_div_right _ h0, Nat.succ_mul]
    have h2 := Nat.div_add_mod (K - 1) N
    have h3 : (K - 1) % N < N := Nat.mod_lt _ h0
    have h4 : (K - 1) / N * N = N * ((K - 1) / N) := Nat.mul_comm _ _
    generalize hP : N * ((K - 1) / N) = P at h2 h4
    rw [h4]
    omega

theorem enqueueAll_normal : ∀ (rs : List FSpawnRequest) (q : SpawnQueue),
    (∀ r ∈ rs, r.priority = ESpawnRequestPriority.Normal ∧ r.isValid = true) →
    enqueueAll q rs = q ++ rs := by
  intro rs
  induction rs with
  | nil => intro q _; simp [enqueueAll]
  | cons r rest ih =>
    intro q hr
    have h1 := hr r (by simp)
    have hstep : (requestSpawn q r).queue = q ++ [r] := by
      simp [requestSpawn, h1.2, h1.1, afterEnqueue]
    have hrec := ih (q ++ [r]) (fun x hx => hr x (by simp [hx]))
    simp [enqueueAll] at hrec ⊢
    rw [hstep, hrec]

/-- C2: For every configured rate the drain clamps values below 1 to 1 with a
diagnostic; one drain tick dequeues and completes exactly min(rate, length)
requests from the front of the queue in order; after t ticks exactly the first
t * rate requests have completed, so a queue of length K finishes in exactly
ceil(K / rate) ticks, its events being the submission-order concatenation of the
per-request processing; and submitting normal-priority requests appends them in
submission order. -/
theorem C2_drain_rate (cfg : Int) (q : SpawnQueue) (rate : Nat) (diag : Bool)
    (hrate : getSpawnRate cfg = (rate, diag))
    (hv : ∀ r ∈ q, r.isValid = true) :
    (1 ≤ rate)
    ∧ (cfg < 1 → rate = 1 ∧ diag = true)
    ∧ (onNextTickProcessSpawn cfg q).1 = q.drop (min rate q.length)
    ∧ (onNextTickProcessSpawn cfg q).2.1 = spawnEvents (q.take (min rate q.length))
    ∧ (∀ t, drainTicks cfg t q =
        (q.drop (t * rate), spawnEvents (q.take (t * rate))))
    ∧ (drainTicks cfg ((q.length + rate - 1) / rate) q).1 = []
    ∧ (drainTicks cfg ((q.length + rate - 1) / rate) q).2 = spawnEvents q
    ∧ (∀ t, (drainTicks cfg t q).1 = [] ↔ q.length ≤ t * rate)
    ∧ (∀ (rs : List FSpawnRequest) (q0 : SpawnQueue),
        (∀ r ∈ rs, r.priority = ESpawnRequestPriority.Normal ∧ r.isValid = true) →
        enqueueAll q0 rs = q0 ++ rs) := by
  have hr1 : (getSpawnRate cfg).1 = rate := by rw [hrate]
  have hrpos : 1 ≤ rate := by
    rw [← hr1]
    unfold getSpawnRate
    split
    · rename_i h; simp; omega
    · simp
  refine ⟨hrpos, ?_, ?_, ?_, ?_, ?_, ?_, ?_, ?_⟩
  · intro hlt
    unfold getSpawnRate at hrate
    rw [if_neg (by omega)] at hrate
    exact ⟨(Prod.mk.injEq _ _ _ _ ▸ hrate).1.symm, (Prod.mk.injEq _ _ _ _ ▸ hrate).2.symm⟩
  · rw [onNextTick_valid cfg q hv, hr1]
  · rw [onNextTick_valid cfg q hv, hr1]
  · intro t; rw [drainTicks_valid cfg t q hv, hr1]
  · rw [drainTicks_valid cfg _ q hv, hr1]
    exact List.drop_eq_nil_of_le (ceil_mul_ge _ _ hrpos)
  · rw [drainTicks_valid cfg _ q hv, hr1]
    rw [List.take_of_length_le (ceil_mul_ge _ _ hrpos)]
  · intro t
    rw [drainTicks_valid cfg t q hv, hr1]
    exact List.drop_eq_nil_iff
  · exact fun rs q0 h => enqueueAll_normal rs q0 h

/-- Concrete queue of five pending normal-priority requests. -/
def fiveNormalQueue : SpawnQueue :=
  [⟨0, ⟨[3], 1⟩, ESpawnRequestPriority.Normal⟩,
   ⟨0, ⟨[3], 2⟩, ESpawnRequestPriority.Normal⟩,
   ⟨0, ⟨[3], 3⟩, ESpawnRequestPriority.Normal⟩,
   ⟨0, ⟨[3], 4⟩, ESpawnRequestPriority.Normal⟩,
   ⟨0, ⟨[3], 5⟩, ESpawnRequestPriority.Normal⟩]

/-- Witness for C2 at rate 2 with 5 pending normal requests: the queue drains in
exactly ceil(5 / 2) = 3 ticks. -/
theorem C2_drain_rate_witness :
    getSpawnRate 2 = (2, false)
    ∧ (∀ r ∈ fiveNormalQueue, r.isValid = true)
    ∧ (drainTicks 2 ((fiveNormalQueue.length + 2 - 1) / 2) fiveNormalQueue).1 = [] :=
  ⟨by decide, by decide,
   (C2_drain_rate 2 fiveNormalQueue 2 false (by decide) (by decide)).2.2.2.2.2.1⟩

/-- C3: For every valid spawn request with Critical priority, RequestSpawn
materializes the object and runs its pre-registration and post-spawn callbacks
synchronously inside the call, whatever the queue holds; the request is never
inserted into the queue and no later tick is scheduled. -/
theorem C3_critical_synchronous (q : SpawnQueue) (r : FSpawnRequest)
    (hp : r.priority = ESpawnRequestPriority.Critical) (hv : r.isValid = true) :
    requestSpawn q r =
      ⟨q, [SpawnEvent.spawned r.handle, SpawnEvent.preRegistered r.handle,
           SpawnEvent.postSpawned r.handle], false⟩ := by
  simp [requestSpawn, hv, hp, processRequestNow]

/-- Witness for C3 with one request already queued. -/
theorem C3_critical_synchronous_witness :
    requestSpawn [⟨0, ⟨[7], 5⟩, ESpawnRequestPriority.Normal⟩]
        ⟨1, ⟨[7], 9⟩, ESpawnRequestPriority.Critical⟩ =
      ⟨[⟨0, ⟨[7], 5⟩, ESpawnRequestPriority.Normal⟩],
       [SpawnEvent.spawned ⟨[7], 9⟩, SpawnEvent.preRegistered ⟨[7], 9⟩,
        SpawnEvent.postSpawned ⟨[7], 9⟩], false⟩ :=
  C3_critical_synchronous _ _ rfl (by decide)

/-!  Lemmas about the priority ordering of the spawn queue. -/

/-- The queue invariant maintained by RequestSpawn: priorities never increase
along the queue (the front is the most urgent). -/
def queueSorted (q : SpawnQueue) : Prop :=
  List.Pairwise (fun a b => prioVal b.priority ≤ prioVal a.priority) q

instance (q : SpawnQueue) : Decidable (queueSorted q) := by
  unfold queueSorted; infer_instance

theorem insertAt_split (q : SpawnQueue) (r : FSpawnRequest) (hs : queueSorted q) :
    insertAt r (findInsertionIndex q r.priority) q
      = q.takeWhile (fun x => !prioLt x.priority r.priority) ++ r ::
        q.dropWhile (fun x => !prioLt x.priority r.priority)
    ∧ (∀ b ∈ q.dropWhile (fun x => !prioLt x.priority r.priority),
        prioVal b.priority < prioVal r.priority) := by
  induction q with
  | nil => simp [insertAt, findInsertionIndex]
  | cons x xs ih =>
    have hs2 : queueSorted xs := hs.tail
    have hx : ∀ y ∈ xs, prioVal y.priority ≤ prioVal x.priority :=
      fun y hy => List.rel_of_pairwise_cons hs hy
    by_cases hlt : prioLt x.priority r.priority = true
    · have hlt2 : prioVal x.priority < prioVal r.priority := by
        simpa [prioLt] using hlt
      refine ⟨?_, ?_⟩
      · simp [findInsertionIndex, hlt, insertAt, List.takeWhile_cons, List.dropWhile_cons]
      · intro b hb
        rw [List.dropWhile_cons] at hb
        simp [hlt] at hb
        rcases hb with hb | hb
        · rw [hb]; exact hlt2
        · exact Nat.lt_of_le_of_lt (hx b hb) hlt2
    · have hrec := ih hs2
      refine ⟨?_, ?_⟩
      · simp only [findInsertionIndex, hlt, if_false, insertAt, List.takeWhile_cons,
          List.dropWhile_cons]
        simp only [hlt, Bool.not_false, if_true, List.cons_append]
        rw [hrec.1]
      · intro b hb
        rw [List.dropWhile_cons] at hb
        simp only [hlt, Bool.not_false, if_true] at hb
        exact hrec.2 b hb

/-- C6: The factory spawn queue stays ordered by priority: a High or Medium
request is inserted after every queued entry whose priority is at least its own
and before every entry of lower priority (last-in goes last among equals), a
Normal request is appended at the end, both insertions preserve the ordering
invariant, and both dequeue operations leave the surviving requests in their
relative order (sublist of the former queue), so equal priorities drain FIFO. -/
theorem C6_queue_priority_order (q : SpawnQueue) (r rn : FSpawnRequest)
    (h : FPoolObjectHandle) (hs : queueSorted q) (hv : r.isValid = true)
    (hp : r.priority = ESpawnRequestPriority.High ∨
          r.priority = ESpawnRequestPriority.Medium)
    (hnv : rn.isValid = true) (hnp : rn.priority = ESpawnRequestPriority.Normal) :
    (∃ A B, q = A ++ B
      ∧ (requestSpawn q r).queue = A ++ r :: B
      ∧ (∀ a ∈ A, prioVal r.priority ≤ prioVal a.priority)
      ∧ (∀ b ∈ B, prioVal b.priority < prioVal r.priority))
    ∧ queueSorted (requestSpawn q r).queue
    ∧ (requestSpawn q rn).queue = q ++ [rn]
    ∧ queueSorted (requestSpawn q rn).queue
    ∧ (dequeueSpawnRequest q).2.2.Sublist q
    ∧ (dequeueSpawnRequestByHandle q h).2.2.Sublist q := by
  have hq : (requestSpawn q r).queue = insertAt r (findInsertionIndex q r.priority) q := by
    rcases hp with hp | hp <;> simp [requestSpawn, hv, hp, afterEnqueue]
  have hsplit := insertAt_split q r hs
  have hA : ∀ a ∈ q.takeWhile (fun x => !prioLt x.priority r.priority),
      prioVal r.priority ≤ prioVal a.priority := by
    intro a ha
    have := List.mem_takeWhile_imp ha
    simp [prioLt] at this
    exact this
  refine ⟨⟨q.takeWhile (fun x => !prioLt x.priority r.priority),
           q.dropWhile (fun x => !prioLt x.priority r.priority),
           (List.takeWhile_append_dropWhile _ _).symm,
           by rw [hq, hsplit.1], hA, hsplit.2⟩, ?_, ?_, ?_, ?_, ?_⟩
  · rw [hq, hsplit.1]
    have hsAB : queueSorted (q.takeWhile (fun x => !prioLt x.priority r.priority) ++
        q.dropWhile (fun x => !prioLt x.priority r.priority)) := by
      rw [List.takeWhile_append_dropWhile]; exact hs
    rw [queueSorted, List.pairwise_append] at hsAB
    rw [queueSorted, List.pairwise_append]
    refine ⟨hsAB.1, ?_, ?_⟩
    · rw [List.pairwise_cons]
      exact ⟨fun b hb => Nat.le_of_lt (hsplit.2 b hb), hsAB.2.1⟩
    · intro a ha y hy
      rcases List.mem_cons.mp hy with hy | hy
      · rw [hy]; exact hA a ha
      · exact hsAB.2.2 a ha y hy
  · simp [requestSpawn, hnv, hnp, afterEnqueue]
  · have hq2 : (requestSpawn q rn).queue = q ++ [rn] := by
      simp [requestSpawn, hnv, hnp, afterEnqueue]
    rw [hq2, queueSorted, List.pairwise_append]
    refine ⟨hs, by simp, ?_⟩
    intro a ha b hb
    rcases List.mem_singleton.mp hb with rfl
    rw [hnp]
    exact Nat.zero_le _
  · match q with
    | [] => simp [dequeueSpawnRequest]
    | x :: xs => simpa [dequeueSpawnRequest] using List.sublist_cons_self x xs
  · unfold dequeueSpawnRequestByHandle
    match hidx : findReqIdx q h with
    | none => exact List.Sublist.refl q
    | some i => exact List.eraseIdx_sublist q i

/-- Witness for C6: inserting a Medium request into a sorted queue holding one
High and one Normal request. -/
theorem C6_queue_priority_order_witness :
    queueSorted [⟨0, ⟨[2], 1⟩, ESpawnRequestPriority.High⟩,
                 ⟨0, ⟨[2], 2⟩, ESpawnRequestPriority.Normal⟩]
    ∧ queueSorted (requestSpawn [⟨0, ⟨[2], 1⟩, ESpawnRequestPriority.High⟩,
                     ⟨0, ⟨[2], 2⟩, ESpawnRequestPriority.Normal⟩]
        ⟨0, ⟨[2], 3⟩, ESpawnRequestPriority.Medium⟩).queue
    ∧ (dequeueSpawnRequestByHandle [⟨0, ⟨[2], 1⟩, ESpawnRequestPriority.High⟩,
                     ⟨0, ⟨[2], 2⟩, ESpawnRequestPriority.Normal⟩]
        ⟨[2], 1⟩).2.2.Sublist
        [⟨0, ⟨[2], 1⟩, ESpawnRequestPriority.High⟩,
         ⟨0, ⟨[2], 2⟩, ESpawnRequestPriority.Normal⟩] := by
  have h := C6_queue_priority_order
    [⟨0, ⟨[2], 1⟩, ESpawnRequestPriority.High⟩,
     ⟨0, ⟨[2], 2⟩, ESpawnRequestPriority.Normal⟩]
    ⟨0, ⟨[2], 3⟩, ESpawnRequestPriority.Medium⟩
    ⟨0, ⟨[2], 9⟩, ESpawnRequestPriority.Normal⟩
    ⟨[2], 1⟩ (by decide) (by decide) (Or.inr rfl) (by decide) rfl
  exact ⟨by decide, h.2.1, h.2.2.2.2.2⟩

/-!  Factory resolution (FindPoolFactoryChecked). -/

theorem findPoolFactoryChecked_some :
    ∀ (chain : UClassRef) (factories : List (UClassRef × Nat)) (i : Nat) (f : Nat),
    i < chain.length → List.lookup (chain.drop i) factories = some f →
    (∀ j, j < i → List.lookup (chain.drop j) factories = none) →
    findPoolFactoryChecked factories chain = some f := by
  intro chain
  induction chain with
  | nil => intro factories i f hi; simp at hi
  | cons c rest ih =>
    intro factories i f hi hfound hnone
    match i with
    | 0 =>
      rw [List.drop_zero] at hfound
      simp [findPoolFactoryChecked, hfound]
    | k + 1 =>
      have h0 : List.lookup (c :: rest) factories = none := by
        have := hnone 0 (Nat.succ_pos k)
        rwa [List.drop_zero] at this
      rw [List.drop_succ_cons] at hfound
      have hrec := ih factories k f (by simpa using hi) hfound
        (fun j hj => by
          have := hnone (j + 1) (Nat.succ_lt_succ hj)
          rwa [List.drop_succ_cons] at this)
      simp [findPoolFactoryChecked, h0, hrec]

theorem findPoolFactoryChecked_none :
    ∀ (chain : UClassRef) (factories : List (UClassRef × Nat)),
    findPoolFactoryChecked factories chain = none ↔
    ∀ i, i < chain.length → List.lookup (chain.drop i) factories = none := by
  intro chain
  induction chain with
  | nil => intro factories; simp [findPoolFactoryChecked]
  | cons c rest ih =>
    intro factories
    constructor
    · intro hres i hi
      have h0 : List.lookup (c :: rest) factories = none := by
        by_contra hc
        rcases Option.ne_none_iff_exists.mp hc with ⟨f, hf⟩
        simp [findPoolFactoryChecked, ← hf] at hres
      match i with
      | 0 => rwa [List.drop_zero]
      | k + 1 =>
        rw [List.drop_succ_cons]
        simp [findPoolFactoryChecked, h0] at hres
        exact (ih factories).mp hres k (by simpa using hi)
    · intro hall
      have h0 : List.lookup (c :: rest) factories = none := by
        have := hall 0 (Nat.succ_pos _)
        rwa [List.drop_zero] at this
      have hrest : findPoolFactoryChecked factories rest = none :=
        (ih factories).mpr (fun j hj => by
          have := hall (j + 1) (Nat.succ_lt_succ hj)
          rwa [List.drop_succ_cons] at this)
      simp [findPoolFactoryChecked, h0, hrest]

/-- C8: Factory resolution walks the static superclass chain upward and returns
the strategy of the closest registered ancestor: if position i of the chain is
the first whose class is registered, its factory is returned (a class D with no
own factory but a registered ancestor B resolves to the strategy of B); and the
resolution crashes on the checkf (modelled `none`) exactly when no class of the
chain is registered.  The result is a function of the inputs, so resolution is
deterministic. -/
theorem C8_factory_resolution (factories : List (UClassRef × Nat)) (chain : UClassRef) :
    (∀ i f, i < chain.length → List.lookup (chain.drop i) factories = some f →
        (∀ j, j < i → List.lookup (chain.drop j) factories = none) →
        findPoolFactoryChecked factories chain = some f)
    ∧ (findPoolFactoryChecked factories chain = none ↔
        ∀ i, i < chain.length → List.lookup (chain.drop i) factories = none) :=
  ⟨fun i f hi hf hn => findPoolFactoryChecked_some chain factories i f hi hf hn,
   findPoolFactoryChecked_none chain factories⟩

/-- Witness for C8: class D (chain [20, 10]) has no factory of its own and its
ancestor B (chain [10]) is registered with factory 77, so D resolves to 77;
a chain with no registered class resolves to the fatal crash. -/
theorem C8_factory_resolution_witness :
    findPoolFactoryChecked [([10], 77)] [20, 10] = some 77
    ∧ findPoolFactoryChecked [([10], 77)] [30] = none :=
  ⟨(C8_factory_resolution [([10], 77)] [20, 10]).1 1 77 (by decide) (by decide)
      (fun j hj => by
        have hj0 : j = 0 := by omega
        subst hj0; decide),
   (C8_factory_resolution [([10], 77)] [30]).2.mpr (fun i hi => by
      have hi1 : i < 1 := by simpa using hi
      have hi0 : i = 0 := by omega
      subst hi0; decide)⟩

/-!  Pool counters. -/

/-- C10: For every class, the number of free objects is at most the number of
registered objects, because a free entry is in particular a valid one; and both
counters are 0 for a class with no pool container. -/
theorem C10_free_le_registered (pools : List FPoolContainer) (cls : UClassRef) :
    getFreeObjectsNum pools cls ≤ getRegisteredObjectsNum pools cls
    ∧ (findPool pools cls = none →
        getFreeObjectsNum pools cls = 0 ∧ getRegisteredObjectsNum pools cls = 0) := by
  unfold getFreeObjectsNum getRegisteredObjectsNum
  match hfp : findPool pools cls with
  | none => exact ⟨Nat.le_refl 0, fun _ => ⟨rfl, rfl⟩⟩
  | some pool =>
    refine ⟨List.countP_mono_left (fun d _ hd => ?_), fun hc => by simp at hc⟩
    unfold FPoolObjectData.isFree at hd
    exact (Bool.and_eq_true _ _ ▸ hd).2

/-- Witness for C10 on a state with one pool holding one free and one active
entry, queried both for the pooled class and for an absent class. -/
theorem C10_free_le_registered_witness :
    getFreeObjectsNum [⟨[4], some 1, [⟨false, some 8, ⟨[4], 3⟩⟩, ⟨true, some 9, ⟨[4], 5⟩⟩]⟩] [4]
      ≤ getRegisteredObjectsNum
          [⟨[4], some 1, [⟨false, some 8, ⟨[4], 3⟩⟩, ⟨true, some 9, ⟨[4], 5⟩⟩]⟩] [4]
    ∧ (getFreeObjectsNum [⟨[4], some 1, [⟨false, some 8, ⟨[4], 3⟩⟩]⟩] [6] = 0
        ∧ getRegisteredObjectsNum [⟨[4], some 1, [⟨false, some 8, ⟨[4], 3⟩⟩]⟩] [6] = 0) :=
  ⟨(C10_free_le_registered
      [⟨[4], some 1, [⟨false, some 8, ⟨[4], 3⟩⟩, ⟨true, some 9, ⟨[4], 5⟩⟩]⟩] [4]).1,
   (C10_free_le_registered [⟨[4], some 1, [⟨false, some 8, ⟨[4], 3⟩⟩]⟩] [6]).2 (by decide)⟩

/-!  Lemmas about entry arrays. -/

/-- Entries of a pool hold pairwise different object references. -/
def objectsDistinct (l : List FPoolObjectData) : Prop :=
  List.Pairwise (fun a b => a.poolObject ≠ b.poolObject) l

instance (l : List FPoolObjectData) : Decidable (objectsDistinct l) := by
  unfold objectsDistinct; infer_instance

theorem nthEntry_mem : ∀ (l : List FPoolObjectData) (i : Nat) (d : FPoolObjectData),
    nthEntry l i = some d → d ∈ l := by
  intro l
  induction l with
  | nil => intro i d h; simp [nthEntry] at h
  | cons x xs ih =>
    intro i d h
    match i with
    | 0 => simp [nthEntry] at h; simp [h]
    | k + 1 =>
      simp only [nthEntry] at h
      exact List.mem_cons_of_mem x (ih k d h)

theorem findFreeIdx_spec : ∀ (l : List FPoolObjectData) (i : Nat),
    findFreeIdx l = some i →
    ∃ d, nthEntry l i = some d ∧ d.isFree = true ∧
      ∀ j dj, j < i → nthEntry l j = some dj → dj.isFree = false := by
  intro l
  induction l with
  | nil => intro i h; simp [findFreeIdx] at h
  | cons x xs ih =>
    intro i h
    by_cases hx : x.isFree = true
    · rw [findFreeIdx, if_pos hx] at h
      cases h
      exact ⟨x, rfl, hx, fun j dj hj _ => absurd hj (Nat.not_lt_zero j)⟩
    · rw [findFreeIdx, if_neg hx] at h
      match hk : findFreeIdx xs with
      | none => rw [hk] at h; simp at h
      | some k =>
        rw [hk] at h
        simp at h
        obtain ⟨d, hd, hdf, hearlier⟩ := ih k hk
        refine ⟨d, ?_, hdf, ?_⟩
        · rw [← h, nthEntry]; exact hd
        · intro j dj hj hdj
          match j with
          | 0 =>
            simp only [nthEntry] at hdj
            cases hdj
            exact Bool.not_eq_true _ ▸ (by simpa using hx)
          | j' + 1 =>
            simp only [nthEntry] at hdj
            exact hearlier j' dj (by omega) hdj

theorem distinct_earlier : ∀ (l : List FPoolObjectData), objectsDistinct l →
    ∀ i j d₀ dj, nthEntry l i = some d₀ → j < i → nthEntry l j = some dj →
    dj.poolObject ≠ d₀.poolObject := by
  intro l
  induction l with
  | nil => intro _ i j d₀ dj h; simp [nthEntry] at h
  | cons x xs ih =>
    intro hdist i j d₀ dj hi hj hdj
    have hd2 : objectsDistinct xs := hdist.tail
    match j, i with
    | 0, k + 1 =>
      simp only [nthEntry] at hdj hi
      cases hdj
      exact List.rel_of_pairwise_cons hdist (nthEntry_mem xs k d₀ hi)
    | j' + 1, k + 1 =>
      simp only [nthEntry] at hdj hi
      exact ih hd2 k j' d₀ dj hi (by omega) hdj

theorem setStateInEntries_of_first :
    ∀ (l : List FPoolObjectData) (i : Nat) (d₀ : FPoolObjectData) (obj : Nat) (b : Bool),
    nthEntry l i = some d₀ → d₀.poolObject = some obj → d₀.isValid = true →
    (∀ j dj, j < i → nthEntry l j = some dj → dj.poolObject ≠ some obj) →
    setStateInEntries b obj l = some (setEntry l i { d₀ with bIsActive := b }) := by
  intro l
  induction l with
  | nil => intro i d₀ obj b h; simp [nthEntry] at h
  | cons x xs ih =>
    intro i d₀ obj b hi hobj hval hearlier
    match i with
    | 0 =>
      simp only [nthEntry] at hi
      cases hi
      rw [setStateInEntries, if_pos (by simp [hobj]), if_pos hval, setEntry]
    | k + 1 =>
      simp only [nthEntry] at hi
      have hx : x.poolObject ≠ some obj :=
        hearlier 0 x (Nat.succ_pos k) rfl
      have hxb : (x.poolObject == some obj) = false := by
        simpa using hx
      rw [setStateInEntries, hxb]
      simp only [Bool.false_eq_true, if_false]
      rw [ih k d₀ obj b hi hobj hval
        (fun j dj hj hdj => hearlier (j + 1) dj (Nat.succ_lt_succ hj) hdj)]
      rw [setEntry]
      rfl

theorem nthEntry_setEntry_self :
    ∀ (l : List FPoolObjectData) (i : Nat) (d d₀ : FPoolObjectData),
    nthEntry l i = some d₀ → nthEntry (setEntry l i d) i = some d := by
  intro l
  induction l with
  | nil => intro i d d₀ h; simp [nthEntry] at h
  | cons x xs ih =>
    intro i d d₀ h
    match i with
    | 0 => rw [setEntry, nthEntry]
    | k + 1 =>
      simp only [nthEntry] at h
      rw [setEntry, nthEntry]
      exact ih k d d₀ h

/-- Entry with its active flag overwritten (the SetObjectStateInPool write). -/
def withActive (d : FPoolObjectData) (b : Bool) : FPoolObjectData :=
  { d with bIsActive := b }

/-- Container with its entry array replaced. -/
def withEntries (p : FPoolContainer) (l : List FPoolObjectData) : FPoolContainer :=
  { p with poolObjects := l }

/-- Subsystem state with its container array replaced. -/
def withPools (s : PoolManagerState) (pl : List FPoolContainer) : PoolManagerState :=
  { s with pools := pl }

/-- C1: TakeFromPoolOrNull scans the container of the class in insertion order and
selects the first free (valid and not active) entry, so it never selects an entry
that was active at call time; on a hit it emits the on-taken factory hook, flips
the entry to Active (the returned entry has its active flag set after the call),
and writes only that entry back; when the class has no pool, or the pool has no
free entry, it returns null and mutates nothing, emitting no hook. -/
theorem C1_take_first_free (st : PoolManagerState) (cls : UClassRef) (tf : Nat)
    (pool : FPoolContainer)
    (hfp : findPool st.pools cls = some pool)
    (hdist : objectsDistinct pool.poolObjects)
    (hfac : pool.factory.isSome = true) :
    (∀ (st2 : PoolManagerState) (cls2 : UClassRef) (tf2 : Nat),
        findPool st2.pools cls2 = none →
        takeFromPoolOrNull st2 cls2 tf2 = some (none, st2, []))
    ∧ (findFreeIdx pool.poolObjects = none →
        takeFromPoolOrNull st cls tf = some (none, st, []))
    ∧ (∀ i d₀ obj, findFreeIdx pool.poolObjects = some i →
        nthEntry pool.poolObjects i = some d₀ → d₀.poolObject = some obj →
        d₀.bIsActive = false
        ∧ d₀.isFree = true
        ∧ (∀ j dj, j < i → nthEntry pool.poolObjects j = some dj → dj.isFree = false)
        ∧ takeFromPoolOrNull st cls tf =
            some (some (withActive d₀ true),
                  withPools st
                    (setFirstPool cls
                      (withEntries pool
                        (setEntry pool.poolObjects i (withActive d₀ true)))
                      st.pools),
                  [PoolEvent.onTakeFromPool obj tf,
                   PoolEvent.onChangedState EPoolObjectState.Active obj])) := by
  have hclsne : cls ≠ [] := by
    intro hc
    rw [findPool, if_pos (by simp [hc])] at hfp
    cases hfp
  have hclsb : (cls == ([] : List Nat)) = false := by simpa using hclsne
  refine ⟨?_, ?_, ?_⟩
  · intro st2 cls2 tf2 hnone
    by_cases hc2 : cls2 == ([] : List Nat)
    · simp only [takeFromPoolOrNull, hc2, if_pos]
    · simp only [takeFromPoolOrNull, hc2, Bool.false_eq_true, if_false, hnone]
  · intro hnofree
    simp only [takeFromPoolOrNull, hclsb, Bool.false_eq_true, if_false, hfp, hnofree]
  · intro i d₀ obj hfree hnth hobj
    obtain ⟨d₁, hnth2, hdfree, hearlier⟩ := findFreeIdx_spec pool.poolObjects i hfree
    have hd01 : d₀ = d₁ := by
      rw [hnth] at hnth2
      exact Option.some.inj hnth2
    subst hd01
    have hnotactive : d₀.bIsActive = false := by
      unfold FPoolObjectData.isFree at hdfree
      have := (Bool.and_eq_true _ _ ▸ hdfree).1
      simpa using this
    have hvalid : d₀.isValid = true := by
      unfold FPoolObjectData.isFree at hdfree
      exact (Bool.and_eq_true _ _ ▸ hdfree).2
    refine ⟨hnotactive, hdfree, hearlier, ?_⟩
    obtain ⟨f, hf⟩ := Option.isSome_iff_exists.mp hfac
    have hset : setStateInEntries true obj pool.poolObjects =
        some (setEntry pool.poolObjects i (withActive d₀ true)) :=
      setStateInEntries_of_first pool.poolObjects i d₀ obj true hnth hobj hvalid
        (fun j dj hj hdj => by
          have := distinct_earlier pool.poolObjects hdist i j d₀ dj hnth hj hdj
          rw [hobj] at this
          exact this)
    have hsop : setObjectStateInPool EPoolObjectState.Active obj pool =
        some (withEntries pool (setEntry pool.poolObjects i (withActive d₀ true)),
              [PoolEvent.onChangedState EPoolObjectState.Active obj]) := by
      have hbeq : (EPoolObjectState.Active == EPoolObjectState.Active) = true := by decide
      simp only [setObjectStateInPool, hbeq, hset, hf, withEntries]
    have hnth3 : nthEntry
        (setEntry pool.poolObjects i (withActive d₀ true)) i =
        some (withActive d₀ true) :=
      nthEntry_setEntry_self pool.poolObjects i _ d₀ hnth
    simp only [takeFromPoolOrNull, hclsb, Bool.false_eq_true, if_false, hfp, hfree,
      hnth, hobj, hf, hsop, withEntries, hnth3, withPools]

/-- Witness for C1: a pool for class [4] whose first entry is active and whose
second entry is free; the take selects the second entry and activates it. -/
theorem C1_take_first_free_witness :
    takeFromPoolOrNull
        ⟨[⟨[4], some 1, [⟨true, some 8, ⟨[4], 3⟩⟩, ⟨false, some 9, ⟨[4], 5⟩⟩]⟩], []⟩
        [4] 0 =
      some (some ⟨true, some 9, ⟨[4], 5⟩⟩,
            ⟨[⟨[4], some 1, [⟨true, some 8, ⟨[4], 3⟩⟩, ⟨true, some 9, ⟨[4], 5⟩⟩]⟩], []⟩,
            [PoolEvent.onTakeFromPool 9 0,
             PoolEvent.onChangedState EPoolObjectState.Active 9]) := by
  have h := (C1_take_first_free
      ⟨[⟨[4], some 1, [⟨true, some 8, ⟨[4], 3⟩⟩, ⟨false, some 9, ⟨[4], 5⟩⟩]⟩], []⟩
      [4] 0
      ⟨[4], some 1, [⟨true, some 8, ⟨[4], 3⟩⟩, ⟨false, some 9, ⟨[4], 5⟩⟩]⟩
      (by decide) (by decide) (by decide)).2.2 1
      ⟨false, some 9, ⟨[4], 5⟩⟩ 9 (by decide) (by decide) (by decide)
  exact h.2.2.2

/-!  Lemmas about registration. -/

theorem setFirstPool_found_core : ∀ (pools : List FPoolContainer) (cls : UClassRef)
    (pool : FPoolContainer),
    List.find? (fun x => x.objectClass == cls) pools = some pool →
    setFirstPool cls pool pools = pools := by
  intro pools cls
  induction pools with
  | nil => intro pool hfp; simp at hfp
  | cons p ps ih =>
    intro pool hfp
    by_cases hc : (p.objectClass == cls) = true
    · have h1 : List.find? (fun x => x.objectClass == cls) (p :: ps) = some p :=
        List.find?_cons_of_pos ps hc
      rw [h1] at hfp
      injection hfp with h2
      subst h2
      rw [setFirstPool, if_pos hc]
    · have h1 : List.find? (fun x => x.objectClass == cls) (p :: ps)
          = List.find? (fun x => x.objectClass == cls) ps :=
        List.find?_cons_of_neg ps (by simp [hc])
      rw [h1] at hfp
      rw [setFirstPool, if_neg (by simp [hc]), ih pool hfp]

theorem setFirstPool_found (pools : List FPoolContainer) (cls : UClassRef)
    (pool : FPoolContainer) (hfp : findPool pools cls = some pool) :
    setFirstPool cls pool pools = pools := by
  rw [findPool] at hfp
  by_cases hcls : (cls == ([] : List Nat)) = true
  · rw [if_pos hcls] at hfp; cases hfp
  · rw [if_neg hcls] at hfp
    exact setFirstPool_found_core pools cls pool hfp

theorem setStateInEntries_append_fresh :
    ∀ (l : List FPoolObjectData) (dta : FPoolObjectData) (obj : Nat) (b : Bool),
    (∀ d ∈ l, (d.poolObject == some obj) = false) →
    dta.poolObject = some obj → dta.isValid = true →
    setStateInEntries b obj (l ++ [dta]) = some (l ++ [withActive dta b]) := by
  intro l
  induction l with
  | nil =>
    intro dta obj b _ hobj hval
    simp only [List.nil_append]
    rw [setStateInEntries, if_pos (by simp [hobj]), if_pos hval]
    rfl
  | cons x xs ih =>
    intro dta obj b hno hobj hval
    have hx : (x.poolObject == some obj) = false := hno x (by simp)
    simp only [List.cons_append]
    rw [setStateInEntries, hx]
    simp only [Bool.false_eq_true, if_false]
    rw [ih dta obj b (fun d hd => hno d (by simp [hd])) hobj hval]
    rfl

theorem withActive_getState (d : FPoolObjectData) :
    withActive d (d.getState == EPoolObjectState.Active) = d := by
  cases d with
  | mk a o h =>
    unfold withActive FPoolObjectData.getState
    cases a <;> simp

/-- C9: RegisterObjectInPool on an object already present in the pool of its class
returns false and changes nothing (no new entry, no handle change, no state-hook
event); on an unregistered object it appends a new entry, keeps the supplied
handle when it is valid and otherwise stores the freshly generated one, applies
the activation state hook, and returns true. -/
theorem C9_register_existing (factories : List (UClassRef × Nat))
    (st : PoolManagerState) (cls : UClassRef) (pool : FPoolContainer)
    (data : FPoolObjectData) (obj freshHash f : Nat)
    (hfp : findPool st.pools cls = some pool)
    (hobj : data.poolObject = some obj) :
    ((pool.poolObjects.find? (fun d => d.poolObject == some obj)).isSome = true →
      registerObjectInPool factories st data cls freshHash = some (false, st, []))
    ∧ (pool.poolObjects.find? (fun d => d.poolObject == some obj) = none →
       pool.factory = some f →
       data.handle.isValid = true →
       registerObjectInPool factories st data cls freshHash =
         some (true,
               withPools st
                 (setFirstPool cls (withEntries pool (pool.poolObjects ++ [data]))
                   st.pools),
               [PoolEvent.onChangedState data.getState obj]))
    ∧ (pool.poolObjects.find? (fun d => d.poolObject == some obj) = none →
       pool.factory = some f →
       data.handle.isValid = false →
       freshHash ≠ 0 →
       registerObjectInPool factories st data cls freshHash =
         some (true,
               withPools st
                 (setFirstPool cls
                   (withEntries pool
                     (pool.poolObjects ++ [{ data with handle := ⟨cls, freshHash⟩ }]))
                   st.pools),
               [PoolEvent.onChangedState data.getState obj])) := by
  have hclsne : cls ≠ [] := by
    intro hc
    rw [findPool, if_pos (by simp [hc])] at hfp
    cases hfp
  have hclsb : (cls == ([] : List Nat)) = false := by simpa using hclsne
  have hfpoa : findPoolOrAdd? factories st.pools cls = some pool := by
    rw [findPoolOrAdd?, if_neg (by simp [hclsb]), hfp]
  refine ⟨?_, ?_, ?_⟩
  · intro hfound
    obtain ⟨dfound, hdf⟩ := Option.isSome_iff_exists.mp hfound
    rw [registerObjectInPool, hobj]
    simp only [hfpoa, hdf, setFirstPool_found st.pools cls pool hfp]
  · intro hnone hfac hval
    have hfresh : ∀ d ∈ pool.poolObjects, (d.poolObject == some obj) = false := by
      intro d hd
      have := List.find?_eq_none.mp hnone d hd
      simpa using this
    have hdval : data.isValid = true := by
      unfold FPoolObjectData.isValid
      rw [hobj, hval]
      simp
    have hset := setStateInEntries_append_fresh pool.poolObjects data obj
      (data.getState == EPoolObjectState.Active) hfresh hobj hdval
    rw [withActive_getState] at hset
    rw [registerObjectInPool, hobj]
    simp only [hfpoa, hnone, hval, if_pos]
    simp only [setObjectStateInPool, hset, hfac, withPools, withEntries]
  · intro hnone hfac hval hfresh0
    have hfresh : ∀ d ∈ pool.poolObjects, (d.poolObject == some obj) = false := by
      intro d hd
      have := List.find?_eq_none.mp hnone d hd
      simpa using this
    have hnh : newHandle cls freshHash = ⟨cls, freshHash⟩ := by
      rw [newHandle, if_neg (by simp [hclsb])]
    have hdval : ({ data with handle := ⟨cls, freshHash⟩ } : FPoolObjectData).isValid
        = true := by
      unfold FPoolObjectData.isValid FPoolObjectHandle.isValid
      rw [hobj]
      simp [hclsne, hfresh0]
    have hset := setStateInEntries_append_fresh pool.poolObjects
      { data with handle := ⟨cls, freshHash⟩ } obj
      (({ data with handle := ⟨cls, freshHash⟩ } : FPoolObjectData).getState ==
        EPoolObjectState.Active) hfresh hobj hdval
    rw [withActive_getState] at hset
    rw [hobj] at hset
    rw [registerObjectInPool, hobj]
    simp only [hfpoa, hnone, hval, Bool.false_eq_true, if_false, hnh]
    simp only [FPoolObjectData.getState] at hset ⊢
    simp only [setObjectStateInPool, hset, hfac, withPools, withEntries]

/-- Witness for C9: registering an already-pooled object 8 fails and changes
nothing; registering a new object 9 with a valid handle appends it and fires the
activation state hook. -/
theorem C9_register_existing_witness :
    registerObjectInPool [] ⟨[⟨[4], some 1, [⟨false, some 8, ⟨[4], 3⟩⟩]⟩], []⟩
        ⟨false, some 8, ⟨[4], 7⟩⟩ [4] 5 =
      some (false, ⟨[⟨[4], some 1, [⟨false, some 8, ⟨[4], 3⟩⟩]⟩], []⟩, [])
    ∧ registerObjectInPool [] ⟨[⟨[4], some 1, [⟨false, some 8, ⟨[4], 3⟩⟩]⟩], []⟩
        ⟨true, some 9, ⟨[4], 7⟩⟩ [4] 5 =
      some (true,
            ⟨[⟨[4], some 1, [⟨false, some 8, ⟨[4], 3⟩⟩, ⟨true, some 9, ⟨[4], 7⟩⟩]⟩], []⟩,
            [PoolEvent.onChangedState EPoolObjectState.Active 9]) := by
  constructor
  · exact (C9_register_existing [] ⟨[⟨[4], some 1, [⟨false, some 8, ⟨[4], 3⟩⟩]⟩], []⟩
      [4] ⟨[4], some 1, [⟨false, some 8, ⟨[4], 3⟩⟩]⟩ ⟨false, some 8, ⟨[4], 7⟩⟩
      8 5 1 (by decide) rfl).1 (by decide)
  · exact (C9_register_existing [] ⟨[⟨[4], some 1, [⟨false, some 8, ⟨[4], 3⟩⟩]⟩], []⟩
      [4] ⟨[4], some 1, [⟨false, some 8, ⟨[4], 3⟩⟩]⟩ ⟨true, some 9, ⟨[4], 7⟩⟩
      9 5 1 (by decide) rfl).2.1 (by decide) rfl (by decide)

/-!  Lemmas about the failure paths of ReturnToPool. -/

theorem setStateInEntries_none_of_absent :
    ∀ (l : List FPoolObjectData) (obj : Nat) (b : Bool),
    (∀ d ∈ l, (d.poolObject == some obj) = false) →
    setStateInEntries b obj l = none := by
  intro l
  induction l with
  | nil => intro obj b _; rfl
  | cons x xs ih =>
    intro obj b hno
    rw [setStateInEntries, hno x (by simp)]
    simp only [Bool.false_eq_true, if_false]
    rw [ih obj b (fun d hd => hno d (by simp [hd]))]
    rfl

theorem setFirstPool_absent : ∀ (pools : List FPoolContainer) (cls : UClassRef)
    (p' : FPoolContainer),
    (∀ p ∈ pools, (p.objectClass == cls) = false) →
    setFirstPool cls p' pools = pools ++ [p'] := by
  intro pools cls p'
  induction pools with
  | nil => intro _; rfl
  | cons p ps ih =>
    intro hno
    rw [setFirstPool, hno p (by simp)]
    simp only [Bool.false_eq_true, if_false]
    rw [ih (fun x hx => hno x (by simp [hx]))]
    rfl

theorem setQueue_absent : ∀ (qs : List (Nat × SpawnQueue)) (f : Nat) (x : SpawnQueue),
    (∀ p ∈ qs, (p.1 == f) = false) → setQueue qs f x = qs := by
  intro qs f x
  induction qs with
  | nil => intro _; rfl
  | cons p ps ih =>
    intro hno
    unfold setQueue
    rw [List.map_cons, hno p (by simp)]
    simp only [Bool.false_eq_true, if_false]
    have := ih (fun y hy => hno y (by simp [hy]))
    unfold setQueue at this
    rw [this]

theorem setQueue_self : ∀ (qs : List (Nat × SpawnQueue)) (f : Nat),
    (qs.map Prod.fst).Nodup → setQueue qs f (getQueue qs f) = qs := by
  intro qs f
  induction qs with
  | nil => intro _; rfl
  | cons p ps ih =>
    obtain ⟨k, q⟩ := p
    intro hnd
    rw [List.map_cons] at hnd
    obtain ⟨hnotin, hnd2⟩ := List.nodup_cons.mp hnd
    by_cases hk : k = f
    · subst hk
      have hgq : getQueue ((k, q) :: ps) k = q := by
        unfold getQueue
        rw [List.lookup_cons]
        simp
      have habs : ∀ y ∈ ps, (y.1 == k) = false := by
        intro y hy
        have hy1 : y.1 ∈ ps.map Prod.fst := List.mem_map_of_mem Prod.fst hy
        by_contra hc
        simp only [Bool.not_eq_false, beq_iff_eq] at hc
        exact hnotin (hc ▸ hy1)
      have htail := setQueue_absent ps k q habs
      unfold setQueue at htail ⊢
      rw [List.map_cons, hgq]
      simp only [htail]
      simp
    · have hgq : getQueue ((k, q) :: ps) f = getQueue ps f := by
        unfold getQueue
        rw [List.lookup_cons]
        have hfk : (f == k) = false := by
          simp
          exact fun h => hk h.symm
        simp only [hfk]
      have hrec := ih hnd2
      unfold setQueue at hrec ⊢
      rw [List.map_cons, hgq, hrec]
      have hkb : ((k, q).1 == f) = false := by simp [hk]
      simp only [hkb, Bool.false_eq_true, if_false]

/-- Counterexample for C5: on a state whose pool for class [4] is empty, returning
the never-registered object 8 does not report failure: the call invokes the
on-returned factory hook and returns true (the C++ overload returns true
unconditionally after the hook; the failed entry lookup inside
SetObjectStateInPool only logs), refuting the claimed failure result. -/
theorem C5_return_unknown_counterexample :
    returnToPool_obj [] ⟨[⟨[4], some 1, []⟩], []⟩ (some 8) [4] =
      some (true, ⟨[⟨[4], some 1, []⟩], []⟩, [PoolEvent.onReturnToPool 8]) := by
  decide

/-- C5 amended: ReturnToPool(object) on a never-registered object emits the
on-returned hook and returns true; the entry-state update is skipped (diagnostic
only) and pool entries are unchanged; when the class had no container, the only
mutation is the lazy creation of an empty container.  ReturnToPool(handle)
returns false when the handle is neither a live pool entry nor a pending spawn
request, with pools and queues unchanged. -/
theorem C5_return_to_pool_amended (factories : List (UClassRef × Nat))
    (st : PoolManagerState) (obj : Nat) (cls : UClassRef) (pool : FPoolContainer)
    (h : FPoolObjectHandle) (f : Nat)
    (hfp : findPool st.pools cls = some pool)
    (hfac : pool.factory = some f)
    (habsent : ∀ d ∈ pool.poolObjects, (d.poolObject == some obj) = false) :
    returnToPool_obj factories st (some obj) cls =
      some (true, st, [PoolEvent.onReturnToPool obj])
    ∧ (∀ (cls2 : UClassRef) (f2 : Nat), cls2 ≠ [] →
        findPool st.pools cls2 = none →
        findPoolFactoryChecked factories cls2 = some f2 →
        returnToPool_obj factories st (some obj) cls2 =
          some (true, withPools st (st.pools ++ [⟨cls2, some f2, []⟩]),
                [PoolEvent.onReturnToPool obj]))
    ∧ (h.isValid = true →
        h.objectClass = cls →
        pool.poolObjects.find? (fun d => d.handle.hash == h.hash) = none →
        findReqIdx (getQueue st.queues f) h = none →
        (st.queues.map Prod.fst).Nodup →
        returnToPool_hdl factories st h = some (false, st, [])) := by
  have hclsne : cls ≠ [] := by
    intro hc
    rw [findPool, if_pos (by simp [hc])] at hfp
    cases hfp
  have hclsb : (cls == ([] : List Nat)) = false := by simpa using hclsne
  have hfpoa : findPoolOrAdd? factories st.pools cls = some pool := by
    rw [findPoolOrAdd?, if_neg (by simp [hclsb]), hfp]
  have hsfp := setFirstPool_found st.pools cls pool hfp
  have hnostate := setStateInEntries_none_of_absent pool.poolObjects obj
    (EPoolObjectState.Inactive == EPoolObjectState.Active) habsent
  refine ⟨?_, ?_, ?_⟩
  · rw [returnToPool_obj]
    simp only [hfpoa, hfac, setObjectStateInPool, hnostate, hsfp]
  · intro cls2 f2 hcls2 hfp2 hffc
    have hfpoa2 : findPoolOrAdd? factories st.pools cls2 =
        some ⟨cls2, some f2, []⟩ := by
      rw [findPoolOrAdd?, if_neg (by simpa using hcls2), hfp2, hffc]
      rfl
    have habs2 : ∀ p ∈ st.pools, (p.objectClass == cls2) = false := by
      intro p hp
      rw [findPool, if_neg (by simpa using hcls2)] at hfp2
      have := List.find?_eq_none.mp hfp2 p hp
      simpa using this
    rw [returnToPool_obj]
    simp only [hfpoa2, setObjectStateInPool]
    have hempty : setStateInEntries
        (EPoolObjectState.Inactive == EPoolObjectState.Active) obj
        ([] : List FPoolObjectData) = none := rfl
    simp only [hempty, setFirstPool_absent st.pools cls2 _ habs2, withPools]
  · intro hv hcl hnohash hnoq hnd
    rw [returnToPool_hdl, if_neg (by simp [hv])]
    rw [hcl]
    simp only [hfpoa, hsfp]
    have hst1 : ({ st with pools := st.pools } : PoolManagerState) = st := rfl
    simp only [hst1, hnohash, hfac]
    rw [dequeueSpawnRequestByHandle, hnoq]
    simp only [setQueue_self st.queues f hnd]

/-- Witness for the amended C5 on a state with one pooled active entry: returning
unknown object 8 succeeds with only the hook event; returning unknown handle
hash 5 fails with nothing changed. -/
theorem C5_return_to_pool_amended_witness :
    returnToPool_obj [] ⟨[⟨[4], some 1, [⟨true, some 2, ⟨[4], 9⟩⟩]⟩], [(1, [])]⟩
        (some 8) [4] =
      some (true, ⟨[⟨[4], some 1, [⟨true, some 2, ⟨[4], 9⟩⟩]⟩], [(1, [])]⟩,
            [PoolEvent.onReturnToPool 8])
    ∧ returnToPool_hdl [] ⟨[⟨[4], some 1, [⟨true, some 2, ⟨[4], 9⟩⟩]⟩], [(1, [])]⟩
        ⟨[4], 5⟩ =
      some (false, ⟨[⟨[4], some 1, [⟨true, some 2, ⟨[4], 9⟩⟩]⟩], [(1, [])]⟩, []) := by
  have hth := C5_return_to_pool_amended []
    ⟨[⟨[4], some 1, [⟨true, some 2, ⟨[4], 9⟩⟩]⟩], [(1, [])]⟩ 8 [4]
    ⟨[4], some 1, [⟨true, some 2, ⟨[4], 9⟩⟩]⟩ ⟨[4], 5⟩ 1
    (by decide) rfl (by decide)
  exact ⟨hth.1, hth.2.2 (by decide) rfl (by decide) (by decide) (by decide)⟩

/-!  Lemmas about cancellation of pending spawn requests. -/

theorem findReqIdx_getD : ∀ (q : SpawnQueue) (h : FPoolObjectHandle) (i : Nat),
    findReqIdx q h = some i →
    i < q.length ∧ (q.getD i default) ∈ q
      ∧ ((q.getD i default).handle.hash == h.hash) = true := by
  intro q h
  induction q with
  | nil => intro i hidx; simp [findReqIdx] at hidx
  | cons r rest ih =>
    intro i hidx
    by_cases hr : (r.handle.hash == h.hash) = true
    · rw [findReqIdx, if_pos hr] at hidx
      cases hidx
      exact ⟨Nat.succ_pos _, by simp, hr⟩
    · rw [findReqIdx, if_neg hr] at hidx
      match hk : findReqIdx rest h with
      | none => rw [hk] at hidx; simp at hidx
      | some k =>
        rw [hk] at hidx
        simp at hidx
        obtain ⟨hlt, hmem, hh⟩ := ih k hk
        subst hidx
        rw [List.getD_cons_succ]
        exact ⟨by simpa using Nat.succ_lt_succ hlt, List.mem_cons_of_mem r hmem, hh⟩

theorem spawnEvents_spawned_mem : ∀ (q : SpawnQueue) (h2 : FPoolObjectHandle),
    SpawnEvent.spawned h2 ∈ spawnEvents q → ∃ r ∈ q, r.handle = h2 := by
  intro q h2
  induction q with
  | nil => intro hmem; simp [spawnEvents] at hmem
  | cons r rest ih =>
    intro hmem
    rw [spawnEvents, List.mem_append] at hmem
    rcases hmem with hmem | hmem
    · simp [processRequestNow] at hmem
      exact ⟨r, by simp, hmem.symm⟩
    · obtain ⟨r2, hr2, hh⟩ := ih hmem
      exact ⟨r2, by simp [hr2], hh⟩

/-- C4: Returning a handle whose object has not yet been constructed (the handle
resolves to no pool entry but to a pending request in the factory queue) before
the next drain tick succeeds, removes exactly the request carrying that handle
from the queue while leaving the pools untouched, and the object is never
constructed: no later drain of the remaining queue ever emits a SpawnNow event
with that handle hash.  Requests a drain has already popped run to completion
within that same tick (the full spawn, pre-registration and post-spawn events),
so they are beyond cancellation. -/
theorem C4_cancel_pending (factories : List (UClassRef × Nat)) (st : PoolManagerState)
    (h : FPoolObjectHandle) (pool : FPoolContainer) (f i : Nat)
    (hv : h.isValid = true)
    (hfp : findPool st.pools h.objectClass = some pool)
    (hnohash : pool.poolObjects.find? (fun d => d.handle.hash == h.hash) = none)
    (hfac : pool.factory = some f)
    (hidx : findReqIdx (getQueue st.queues f) h = some i)
    (hqv : ∀ r ∈ getQueue st.queues f, r.isValid = true)
    (huniq : ∀ r ∈ (getQueue st.queues f).eraseIdx i,
        (r.handle.hash == h.hash) = false) :
    ((getQueue st.queues f).getD i default).handle.hash = h.hash
    ∧ returnToPool_hdl factories st h =
        some (true,
              ⟨st.pools, setQueue st.queues f ((getQueue st.queues f).eraseIdx i)⟩,
              [])
    ∧ (∀ (cfg : Int) (t : Nat) (h2 : FPoolObjectHandle),
        SpawnEvent.spawned h2 ∈
          (drainTicks cfg t ((getQueue st.queues f).eraseIdx i)).2 →
        (h2.hash == h.hash) = false)
    ∧ (∀ (cfg : Int) (q2 : SpawnQueue), (∀ r ∈ q2, r.isValid = true) →
        (onNextTickProcessSpawn cfg q2).2.1 =
          spawnEvents (q2.take (min (getSpawnRate cfg).1 q2.length))) := by
  obtain ⟨hlen, hmem, hhash⟩ := findReqIdx_getD (getQueue st.queues f) h i hidx
  have hreqv : ((getQueue st.queues f).getD i default).isValid = true := hqv _ hmem
  have hsfp := setFirstPool_found st.pools h.objectClass pool hfp
  have hfpoa : findPoolOrAdd? factories st.pools h.objectClass = some pool := by
    have hclsb : (h.objectClass == ([] : List Nat)) = false := by
      unfold FPoolObjectHandle.isValid at hv
      have h1 := (Bool.and_eq_true _ _ ▸ hv).1
      simpa using h1
    rw [findPoolOrAdd?, if_neg (by simp [hclsb]), hfp]
  refine ⟨by simpa using hhash, ?_, ?_, ?_⟩
  · rw [returnToPool_hdl, if_neg (by simp [hv])]
    simp only [hfpoa, hsfp]
    have hst1 : ({ st with pools := st.pools } : PoolManagerState) = st := rfl
    simp only [hst1, hnohash, hfac]
    rw [dequeueSpawnRequestByHandle, hidx]
    simp only [hreqv]
  · intro cfg t h2 hmem2
    have hqv2 : ∀ r ∈ (getQueue st.queues f).eraseIdx i, r.isValid = true :=
      fun r hr => hqv r ((List.eraseIdx_sublist _ i).subset hr)
    rw [drainTicks_valid cfg t _ hqv2] at hmem2
    obtain ⟨r, hrmem, hrh⟩ := spawnEvents_spawned_mem _ h2 hmem2
    have hr2 : r ∈ (getQueue st.queues f).eraseIdx i :=
      List.take_subset _ _ hrmem
    have := huniq r hr2
    rw [hrh] at this
    exact this
  · intro cfg q2 hq2
    rw [onNextTick_valid cfg q2 hq2]

/-- Witness for C4: cancelling the single pending request with handle hash 5
succeeds and empties the factory queue without touching the pool. -/
theorem C4_cancel_pending_witness :
    returnToPool_hdl []
        ⟨[⟨[4], some 1, []⟩],
         [(1, [⟨0, ⟨[4], 5⟩, ESpawnRequestPriority.Normal⟩])]⟩ ⟨[4], 5⟩ =
      some (true, ⟨[⟨[4], some 1, []⟩], [(1, [])]⟩, []) := by
  have hth := C4_cancel_pending []
    ⟨[⟨[4], some 1, []⟩], [(1, [⟨0, ⟨[4], 5⟩, ESpawnRequestPriority.Normal⟩])]⟩
    ⟨[4], 5⟩ ⟨[4], some 1, []⟩ 1 0
    (by decide) (by decide) (by decide) rfl (by decide) (by decide) (by decide)
  exact hth.2.1

/-!  Invariants and shape lemmas for the batch drain. -/

/-- Every object reference held by any entry of any pool is below the bound
(the bound is the next identifier SpawnNow will hand out). -/
def objBoundB (pools : List FPoolContainer) (n : Nat) : Bool :=
  pools.all (fun pool => pool.poolObjects.all (fun d =>
    match d.poolObject with
    | none => true
    | some o => o < n))

/-- No entry of any pool carries the hash of the given handle. -/
def hashAbsentB (pools : List FPoolContainer) (hh : FPoolObjectHandle) : Bool :=
  pools.all (fun pool => pool.poolObjects.all (fun d => !(d.handle.hash == hh.hash)))

/-- Every pool container has its factory reference set. -/
def poolsWF (pools : List FPoolContainer) : Bool :=
  pools.all (fun p => p.factory.isSome)

theorem mem_setFirstPool : ∀ (pools : List FPoolContainer) (cls : UClassRef)
    (p' x : FPoolContainer), x ∈ setFirstPool cls p' pools → x = p' ∨ x ∈ pools := by
  intro pools cls p'
  induction pools with
  | nil =>
    intro x hx
    rw [setFirstPool] at hx
    simp at hx
    exact Or.inl hx
  | cons p ps ih =>
    intro x hx
    rw [setFirstPool] at hx
    by_cases hc : (p.objectClass == cls) = true
    · rw [if_pos hc] at hx
      rcases List.mem_cons.mp hx with hx | hx
      · exact Or.inl hx
      · exact Or.inr (List.mem_cons_of_mem p hx)
    · rw [if_neg hc] at hx
      rcases List.mem_cons.mp hx with hx | hx
      · exact Or.inr (by simp [hx])
      · rcases ih x hx with hx2 | hx2
        · exact Or.inl hx2
        · exact Or.inr (List.mem_cons_of_mem p hx2)

theorem findPool_setFirstPool_same : ∀ (pools : List FPoolContainer) (cls : UClassRef)
    (p' : FPoolContainer), (cls == ([] : List Nat)) = false → p'.objectClass = cls →
    findPool (setFirstPool cls p' pools) cls = some p' := by
  intro pools cls p' hcls hpc
  induction pools with
  | nil =>
    rw [setFirstPool, findPool, if_neg (by simp [hcls])]
    rw [List.find?_cons_of_pos _ (by simp [hpc])]
  | cons p ps ih =>
    rw [setFirstPool]
    by_cases hc : (p.objectClass == cls) = true
    · rw [if_pos hc, findPool, if_neg (by simp [hcls])]
      rw [List.find?_cons_of_pos _ (by simp [hpc])]
    · rw [if_neg hc, findPool, if_neg (by simp [hcls])]
      rw [List.find?_cons_of_neg _ (by simp_all)]
      rw [findPool, if_neg (by simp [hcls])] at ih
      exact ih

theorem findPool_setFirstPool_other : ∀ (pools : List FPoolContainer) (cls : UClassRef)
    (p' : FPoolContainer) (cls2 : UClassRef), p'.objectClass = cls → cls2 ≠ cls →
    findPool (setFirstPool cls p' pools) cls2 = findPool pools cls2 := by
  intro pools cls p' cls2 hpc hne
  by_cases hcls2 : (cls2 == ([] : List Nat)) = true
  · rw [findPool, if_pos hcls2, findPool, if_pos hcls2]
  · induction pools with
    | nil =>
      rw [setFirstPool, findPool, if_neg hcls2, findPool, if_neg hcls2]
      rw [List.find?_cons_of_neg _ (by simp [hpc]; exact fun hx => absurd hx.symm hne)]
    | cons p ps ih =>
      rw [setFirstPool]
      by_cases hc : (p.objectClass == cls) = true
      · rw [if_pos hc, findPool, if_neg hcls2, findPool, if_neg hcls2]
        have hp2 : (p'.objectClass == cls2) = false := by
          simp [hpc]
          exact fun hx => absurd hx.symm hne
        have hp1 : (p.objectClass == cls2) = false := by
          have : p.objectClass = cls := by simpa using hc
          simp [this]
          exact fun hx => absurd hx.symm hne
        rw [List.find?_cons_of_neg _ (by simp [hp2]),
            List.find?_cons_of_neg _ (by simp [hp1])]
      · rw [if_neg hc, findPool, if_neg hcls2, findPool, if_neg hcls2]
        by_cases hc2 : (p.objectClass == cls2) = true
        · have h1 : List.find? (fun x => x.objectClass == cls2)
              (p :: setFirstPool cls p' ps) = some p :=
            List.find?_cons_of_pos _ hc2
          have h2 : List.find? (fun x => x.objectClass == cls2) (p :: ps) = some p :=
            List.find?_cons_of_pos _ hc2
          rw [h1, h2]
        · have h1 : List.find? (fun x => x.objectClass == cls2)
              (p :: setFirstPool cls p' ps)
              = List.find? (fun x => x.objectClass == cls2) (setFirstPool cls p' ps) :=
            List.find?_cons_of_neg _ (by simp_all)
          have h2 : List.find? (fun x => x.objectClass == cls2) (p :: ps)
              = List.find? (fun x => x.objectClass == cls2) ps :=
            List.find?_cons_of_neg _ (by simp_all)
          rw [h1, h2]
          rw [findPool, if_neg hcls2, findPool, if_neg hcls2] at ih
          exact ih

theorem find?_entries_append_none :
    ∀ (l1 l2 : List FPoolObjectData) (p : FPoolObjectData → Bool),
    l1.find? p = none → (l1 ++ l2).find? p = l2.find? p := by
  intro l1 l2 p
  induction l1 with
  | nil => intro _; rfl
  | cons x xs ih =>
    intro hn
    have hx : p x = false := by
      by_contra hc
      rw [List.find?_cons_of_pos _ (by simpa using hc)] at hn
      cases hn
    rw [List.find?_cons_of_neg _ (by simp [hx])] at hn
    rw [List.cons_append, List.find?_cons_of_neg _ (by simp [hx])]
    exact ih hn

theorem find?_entries_append_some :
    ∀ (l1 l2 : List FPoolObjectData) (p : FPoolObjectData → Bool) (d : FPoolObjectData),
    l1.find? p = some d → (l1 ++ l2).find? p = some d := by
  intro l1 l2 p
  induction l1 with
  | nil => intro d hn; cases hn
  | cons x xs ih =>
    intro d hn
    by_cases hx : p x = true
    · rw [List.find?_cons_of_pos _ hx] at hn
      rw [List.cons_append, List.find?_cons_of_pos _ hx]
      exact hn
    · rw [List.find?_cons_of_neg _ hx] at hn
      rw [List.cons_append, List.find?_cons_of_neg _ hx]
      exact ih d hn

theorem findPool_mem (pools : List FPoolContainer) (cls : UClassRef)
    (pool : FPoolContainer) (hfp : findPool pools cls = some pool) :
    pool ∈ pools ∧ pool.objectClass = cls := by
  rw [findPool] at hfp
  split at hfp
  · cases hfp
  · exact ⟨List.mem_of_find?_eq_some hfp, by simpa using List.find?_some hfp⟩

theorem register_fresh_existing_pool (factories : List (UClassRef × Nat))
    (st : PoolManagerState) (cls : UClassRef) (pool : FPoolContainer)
    (data : FPoolObjectData) (obj freshHash f : Nat)
    (hfp : findPool st.pools cls = some pool)
    (hobj : data.poolObject = some obj)
    (hnone : pool.poolObjects.find? (fun d => d.poolObject == some obj) = none)
    (hfac : pool.factory = some f)
    (hval : data.handle.isValid = true) :
    registerObjectInPool factories st data cls freshHash =
      some (true,
            withPools st (setFirstPool cls
              (withEntries pool (pool.poolObjects ++ [data])) st.pools),
            [PoolEvent.onChangedState data.getState obj]) := by
  have hclsne : cls ≠ [] := by
    intro hc
    rw [findPool, if_pos (by simp [hc])] at hfp
    cases hfp
  have hclsb : (cls == ([] : List Nat)) = false := by simpa using hclsne
  have hfpoa : findPoolOrAdd? factories st.pools cls = some pool := by
    rw [findPoolOrAdd?, if_neg (by simp [hclsb]), hfp]
  have hfresh : ∀ d ∈ pool.poolObjects, (d.poolObject == some obj) = false := by
    intro d hd
    have := List.find?_eq_none.mp hnone d hd
    simpa using this
  have hdval : data.isValid = true := by
    unfold FPoolObjectData.isValid
    rw [hobj, hval]
    simp
  have hset := setStateInEntries_append_fresh pool.poolObjects data obj
    (data.getState == EPoolObjectState.Active) hfresh hobj hdval
  rw [withActive_getState] at hset
  rw [registerObjectInPool, hobj]
  simp only [hfpoa, hnone, hval, if_pos]
  simp only [setObjectStateInPool, hset, hfac, withPools, withEntries]

theorem register_fresh_new_pool (factories : List (UClassRef × Nat))
    (st : PoolManagerState) (cls : UClassRef) (data : FPoolObjectData)
    (obj freshHash f : Nat)
    (hclsb : (cls == ([] : List Nat)) = false)
    (hfp : findPool st.pools cls = none)
    (hffc : findPoolFactoryChecked factories cls = some f)
    (hobj : data.poolObject = some obj)
    (hval : data.handle.isValid = true) :
    registerObjectInPool factories st data cls freshHash =
      some (true,
            withPools st (setFirstPool cls ⟨cls, some f, [data]⟩ st.pools),
            [PoolEvent.onChangedState data.getState obj]) := by
  have hfpoa : findPoolOrAdd? factories st.pools cls =
      some ⟨cls, some f, []⟩ := by
    rw [findPoolOrAdd?, if_neg (by simp [hclsb]), hfp, hffc]
    rfl
  have hdval : data.isValid = true := by
    unfold FPoolObjectData.isValid
    rw [hobj, hval]
    simp
  have hset := setStateInEntries_append_fresh [] data obj
    (data.getState == EPoolObjectState.Active) (by intro d hd; cases hd) hobj hdval
  rw [withActive_getState] at hset
  simp only [List.nil_append] at hset
  rw [registerObjectInPool, hobj]
  simp only [hfpoa, List.find?_nil, hval, if_pos, List.nil_append]
  simp only [setObjectStateInPool, hset, withPools]

theorem register_fresh_any (factories : List (UClassRef × Nat))
    (st : PoolManagerState) (cls : UClassRef) (data : FPoolObjectData)
    (obj freshHash : Nat)
    (hclsb : (cls == ([] : List Nat)) = false)
    (hffc : (findPoolFactoryChecked factories cls).isSome = true)
    (hwf : poolsWF st.pools = true)
    (habsobj : ∀ pool ∈ st.pools, ∀ d ∈ pool.poolObjects,
        (d.poolObject == some obj) = false)
    (hobj : data.poolObject = some obj)
    (hval : data.handle.isValid = true) :
    ∃ pool2 : FPoolContainer,
      registerObjectInPool factories st data cls freshHash =
        some (true, withPools st (setFirstPool cls pool2 st.pools),
              [PoolEvent.onChangedState data.getState obj])
      ∧ pool2.objectClass = cls
      ∧ pool2.factory.isSome = true
      ∧ ((∃ pool, findPool st.pools cls = some pool
            ∧ pool2 = withEntries pool (pool.poolObjects ++ [data]))
         ∨ (findPool st.pools cls = none ∧ pool2.poolObjects = [data])) := by
  match hfp : findPool st.pools cls with
  | some pool =>
    obtain ⟨hmem, hcls⟩ := findPool_mem st.pools cls pool hfp
    have hnone : pool.poolObjects.find? (fun d => d.poolObject == some obj) = none :=
      List.find?_eq_none.mpr (fun d hd => by simp [habsobj pool hmem d hd])
    have hfac : pool.factory.isSome = true := by
      have := List.all_eq_true.mp hwf pool hmem
      simpa using this
    obtain ⟨f, hf⟩ := Option.isSome_iff_exists.mp hfac
    refine ⟨withEntries pool (pool.poolObjects ++ [data]),
      register_fresh_existing_pool factories st cls pool data obj freshHash f
        hfp hobj hnone hf hval, by simpa [withEntries] using hcls,
      by simp [withEntries, hf], Or.inl ⟨pool, rfl, rfl⟩⟩
  | none =>
    obtain ⟨f, hf⟩ := Option.isSome_iff_exists.mp hffc
    exact ⟨⟨cls, some f, [data]⟩,
      register_fresh_new_pool factories st cls data obj freshHash f
        hclsb hfp hf hobj hval, rfl, rfl, Or.inr ⟨rfl, rfl⟩⟩

theorem all_setFirstPool : ∀ (pools : List FPoolContainer) (cls : UClassRef)
    (pool2 : FPoolContainer) (P : FPoolContainer → Bool),
    pools.all P = true → P pool2 = true →
    (setFirstPool cls pool2 pools).all P = true := by
  intro pools cls pool2 P
  induction pools with
  | nil =>
    intro _ h2
    rw [setFirstPool]
    simp [h2]
  | cons p ps ih =>
    intro h1 h2
    rw [List.all_cons] at h1
    rw [setFirstPool]
    by_cases hc : (p.objectClass == cls) = true
    · rw [if_pos hc, List.all_cons]
      simp [h2, (Bool.and_eq_true _ _ ▸ h1).2]
    · rw [if_neg hc, List.all_cons]
      simp [(Bool.and_eq_true _ _ ▸ h1).1, ih (Bool.and_eq_true _ _ ▸ h1).2 h2]

theorem objBoundB_mono (pools : List FPoolContainer) (n m : Nat)
    (h : objBoundB pools n = true) (hnm : n ≤ m) : objBoundB pools m = true := by
  rw [objBoundB, List.all_eq_true] at h ⊢
  intro pool hp
  have hpool := h pool hp
  rw [List.all_eq_true] at hpool ⊢
  intro d hd
  have hdb := hpool d hd
  match hdo : d.poolObject with
  | none => simp
  | some o =>
    rw [hdo] at hdb
    simp at hdb ⊢
    omega

theorem resolvable_elim (pools : List FPoolContainer) (hh : FPoolObjectHandle)
    (hres : (findPoolObjectByHandle pools hh).isValid = true) :
    hh.isValid = true ∧ ∃ poolh d, findPool pools hh.objectClass = some poolh ∧
      poolh.poolObjects.find? (fun x => x.handle.hash == hh.hash) = some d ∧
      d.isValid = true := by
  rw [findPoolObjectByHandle] at hres
  split at hres
  · exact absurd hres (by decide)
  · rename_i poolh hfp
    split at hres
    · exact absurd hres (by decide)
    · rename_i hnv
      have hv : hh.isValid = true := by simpa using hnv
      split at hres
      · rename_i d hfd
        exact ⟨hv, poolh, d, hfp, hfd, hres⟩
      · exact absurd hres (by decide)

theorem resolvable_intro (pools : List FPoolContainer) (hh : FPoolObjectHandle)
    (poolh : FPoolContainer) (d : FPoolObjectData)
    (hv : hh.isValid = true)
    (hfp : findPool pools hh.objectClass = some poolh)
    (hfd : poolh.poolObjects.find? (fun x => x.handle.hash == hh.hash) = some d)
    (hd : d.isValid = true) : (findPoolObjectByHandle pools hh).isValid = true := by
  rw [findPoolObjectByHandle, hfp]
  show (if (!hh.isValid) = true then default
        else match poolh.poolObjects.find?
            (fun x : FPoolObjectData => x.handle.hash == hh.hash) with
             | some d => d
             | none => default).isValid = true
  rw [if_neg (by simp [hv]), hfd]
  exact hd

theorem hashAbsentB_elim (pools : List FPoolContainer) (hh : FPoolObjectHandle)
    (pool : FPoolContainer) (d : FPoolObjectData)
    (h : hashAbsentB pools hh = true) (hp : pool ∈ pools) (hd : d ∈ pool.poolObjects) :
    (d.handle.hash == hh.hash) = false := by
  rw [hashAbsentB, List.all_eq_true] at h
  have h1 := h pool hp
  rw [List.all_eq_true] at h1
  have h2 := h1 d hd
  simpa using h2

theorem objBoundB_elim (pools : List FPoolContainer) (n : Nat)
    (pool : FPoolContainer) (d : FPoolObjectData) (o : Nat)
    (h : objBoundB pools n = true) (hp : pool ∈ pools) (hd : d ∈ pool.poolObjects)
    (ho : d.poolObject = some o) : o < n := by
  rw [objBoundB, List.all_eq_true] at h
  have h1 := h pool hp
  rw [List.all_eq_true] at h1
  have h2 := h1 d hd
  rw [ho] at h2
  simpa using h2

theorem stepBatch_fresh (factories : List (UClassRef × Nat))
    (lastH : FPoolObjectHandle) (allHs : List FPoolObjectHandle)
    (br : BatchRun) (r : FSpawnRequest)
    (hval : r.handle.isValid = true)
    (hffc : (findPoolFactoryChecked factories r.handle.objectClass).isSome = true)
    (hwf : poolsWF br.st.pools = true)
    (hbound : objBoundB br.st.pools br.nextObj = true)
    (habs : hashAbsentB br.st.pools r.handle = true) :
    ∃ st2 : PoolManagerState,
      stepBatch factories lastH allHs br r =
        some ⟨st2, br.nextObj + 1,
              br.fires ++ (if r.handle.hash == lastH.hash then
                  [allHs.all (fun hh => (findPoolObjectByHandle st2.pools hh).isValid)]
                else [])⟩
      ∧ st2.queues = br.st.queues
      ∧ poolsWF st2.pools = true
      ∧ objBoundB st2.pools (br.nextObj + 1) = true
      ∧ (∀ hh, (findPoolObjectByHandle br.st.pools hh).isValid = true →
          (findPoolObjectByHandle st2.pools hh).isValid = true)
      ∧ (findPoolObjectByHandle st2.pools r.handle).isValid = true
      ∧ (∀ hh, hashAbsentB br.st.pools hh = true →
          (hh.hash == r.handle.hash) = false →
          hashAbsentB st2.pools hh = true) := by
  have hclsb : (r.handle.objectClass == ([] : List Nat)) = false := by
    have h1 := hval
    unfold FPoolObjectHandle.isValid at h1
    have h2 := (Bool.and_eq_true _ _ ▸ h1).1
    simpa using h2
  have habsobj : ∀ pool ∈ br.st.pools, ∀ d ∈ pool.poolObjects,
      (d.poolObject == some br.nextObj) = false := by
    intro pool hp d hd
    match hdo : d.poolObject with
    | none => simp
    | some o =>
      have := objBoundB_elim br.st.pools br.nextObj pool d o hbound hp hd hdo
      simp
      omega
  obtain ⟨pool2, hreg, hp2cls, hp2fac, hshape⟩ :=
    register_fresh_any factories br.st r.handle.objectClass
      ⟨true, some br.nextObj, r.handle⟩ br.nextObj 0 hclsb hffc hwf habsobj rfl hval
  have hdataval : (⟨true, some br.nextObj, r.handle⟩ : FPoolObjectData).isValid = true := by
    unfold FPoolObjectData.isValid
    simp [hval]
  refine ⟨withPools br.st (setFirstPool r.handle.objectClass pool2 br.st.pools),
    ?_, rfl, ?_, ?_, ?_, ?_, ?_⟩
  · rw [stepBatch, hreg]
  · exact all_setFirstPool br.st.pools r.handle.objectClass pool2 _ hwf hp2fac
  · refine all_setFirstPool br.st.pools r.handle.objectClass pool2 _
      (objBoundB_mono br.st.pools br.nextObj (br.nextObj + 1) hbound (Nat.le_succ _)) ?_
    rcases hshape with ⟨pool, hfpl, hp2⟩ | ⟨hfpn, hp2⟩
    · rw [hp2]
      simp only [withEntries, List.all_append, Bool.and_eq_true]
      refine ⟨?_, by simp⟩
      rw [List.all_eq_true]
      intro d hd
      match hdo : d.poolObject with
      | none => simp
      | some o =>
        have := objBoundB_elim br.st.pools br.nextObj pool d o hbound
          (findPool_mem br.st.pools r.handle.objectClass pool hfpl).1 hd hdo
        simp
        omega
    · rw [hp2]
      simp
  · intro hh hres
    simp only [withPools]
    obtain ⟨hv, poolh, d, hfp, hfd, hd⟩ := resolvable_elim br.st.pools hh hres
    by_cases hcc : hh.objectClass = r.handle.objectClass
    · rcases hshape with ⟨pool, hfpl, hp2⟩ | ⟨hfpn, hp2⟩
      · have hpe : pool = poolh := by
          rw [hcc] at hfp
          rw [hfpl] at hfp
          exact Option.some.inj hfp
        subst hpe
        refine resolvable_intro _ hh pool2 d hv ?_ ?_ hd
        · rw [hcc]
          exact findPool_setFirstPool_same br.st.pools r.handle.objectClass pool2
            hclsb hp2cls
        · rw [hp2]
          simp only [withEntries]
          exact find?_entries_append_some _ _ _ d hfd
      · rw [hcc, hfpn] at hfp
        cases hfp
    · refine resolvable_intro _ hh poolh d hv ?_ hfd hd
      rw [findPool_setFirstPool_other br.st.pools r.handle.objectClass pool2
        hh.objectClass hp2cls hcc]
      exact hfp
  · simp only [withPools]
    refine resolvable_intro _ r.handle pool2 ⟨true, some br.nextObj, r.handle⟩ hval
      (findPool_setFirstPool_same br.st.pools r.handle.objectClass pool2 hclsb hp2cls)
      ?_ hdataval
    rcases hshape with ⟨pool, hfpl, hp2⟩ | ⟨hfpn, hp2⟩
    · rw [hp2]
      simp only [withEntries]
      have hnone : pool.poolObjects.find?
          (fun x => x.handle.hash == r.handle.hash) = none :=
        List.find?_eq_none.mpr (fun d hd => by
          simp [hashAbsentB_elim br.st.pools r.handle pool d habs
            (findPool_mem br.st.pools r.handle.objectClass pool hfpl).1 hd])
      rw [find?_entries_append_none _ _ _ hnone]
      rw [List.find?_cons_of_pos _ (by simp)]
    · rw [hp2]
      rw [List.find?_cons_of_pos _ (by simp)]
  · intro hh hhabs hne
    simp only [withPools]
    rw [hashAbsentB, List.all_eq_true]
    intro x hx
    rw [List.all_eq_true]
    intro d hd
    rcases mem_setFirstPool br.st.pools r.handle.objectClass pool2 x hx with hx2 | hx2
    · subst hx2
      have hdata : ((⟨true, some br.nextObj, r.handle⟩ : FPoolObjectData).handle.hash
          == hh.hash) = false := by
        simp at hne ⊢
        exact fun h2 => hne h2.symm
      rcases hshape with ⟨pool, hfpl, hp2⟩ | ⟨hfpn, hp2⟩
      · rw [hp2] at hd
        simp only [withEntries] at hd
        rcases List.mem_append.mp hd with hd2 | hd2
        · simp [hashAbsentB_elim br.st.pools hh pool d hhabs
            (findPool_mem br.st.pools r.handle.objectClass pool hfpl).1 hd2]
        · rcases List.mem_singleton.mp hd2 with rfl
          simpa using hdata
      · rw [hp2] at hd
        rcases List.mem_singleton.mp hd with rfl
        simpa using hdata
    · simp [hashAbsentB_elim br.st.pools hh x d hhabs hx2 hd]

theorem runBatch_append (factories : List (UClassRef × Nat))
    (lastH : FPoolObjectHandle) (allHs : List FPoolObjectHandle) :
    ∀ (l1 l2 : List FSpawnRequest) (br : BatchRun),
    runBatch factories lastH allHs (l1 ++ l2) br =
      match runBatch factories lastH allHs l1 br with
      | none => none
      | some br2 => runBatch factories lastH allHs l2 br2 := by
  intro l1 l2
  induction l1 with
  | nil => intro br; rfl
  | cons r rest ih =>
    intro br
    rw [List.cons_append, runBatch, runBatch]
    match stepBatch factories lastH allHs br r with
    | none => rfl
    | some br2 => exact ih br2

theorem runBatch_nolast (factories : List (UClassRef × Nat))
    (lastH : FPoolObjectHandle) (allHs : List FPoolObjectHandle) :
    ∀ (rs : List FSpawnRequest) (br : BatchRun),
    (∀ r ∈ rs, r.handle.isValid = true) →
    (∀ r ∈ rs, (findPoolFactoryChecked factories r.handle.objectClass).isSome = true) →
    (∀ r ∈ rs, hashAbsentB br.st.pools r.handle = true) →
    (rs.map (fun r => r.handle.hash)).Nodup →
    (∀ r ∈ rs, (r.handle.hash == lastH.hash) = false) →
    poolsWF br.st.pools = true →
    objBoundB br.st.pools br.nextObj = true →
    ∃ brF : BatchRun,
      runBatch factories lastH allHs rs br = some brF
      ∧ brF.fires = br.fires
      ∧ poolsWF brF.st.pools = true
      ∧ objBoundB brF.st.pools brF.nextObj = true
      ∧ (∀ hh, (findPoolObjectByHandle br.st.pools hh).isValid = true →
          (findPoolObjectByHandle brF.st.pools hh).isValid = true)
      ∧ (∀ r ∈ rs, (findPoolObjectByHandle brF.st.pools r.handle).isValid = true)
      ∧ (∀ hh, hashAbsentB br.st.pools hh = true →
          (∀ r ∈ rs, (hh.hash == r.handle.hash) = false) →
          hashAbsentB brF.st.pools hh = true) := by
  intro rs
  induction rs with
  | nil =>
    intro br _ _ _ _ _ hwf hbound
    exact ⟨br, rfl, rfl, hwf, hbound, fun hh h => h, fun r hr => absurd hr (by simp),
      fun hh h _ => h⟩
  | cons r rest ih =>
    intro br hvalid hffc habs hnd hnolast hwf hbound
    obtain ⟨st2, hstep, hq2, hwf2, hbound2, hmono2, hres2, habs2⟩ :=
      stepBatch_fresh factories lastH allHs br r (hvalid r (by simp))
        (hffc r (by simp)) hwf hbound (habs r (by simp))
    rw [hnolast r (by simp)] at hstep
    simp only [Bool.false_eq_true, if_false, List.append_nil] at hstep
    rw [List.map_cons] at hnd
    obtain ⟨hnotin, hnd2⟩ := List.nodup_cons.mp hnd
    have hne : ∀ r2 ∈ rest, (r2.handle.hash == r.handle.hash) = false := by
      intro r2 hr2
      have : r2.handle.hash ∈ rest.map (fun x => x.handle.hash) :=
        List.mem_map_of_mem _ hr2
      simp
      intro hcontra
      exact hnotin (hcontra ▸ this)
    obtain ⟨brF, hrun, hfires, hwfF, hboundF, hmonoF, hresF, habsF⟩ :=
      ih ⟨st2, br.nextObj + 1, br.fires⟩
        (fun x hx => hvalid x (by simp [hx]))
        (fun x hx => hffc x (by simp [hx]))
        (fun x hx => habs2 x.handle (habs x (by simp [hx])) (hne x hx))
        hnd2
        (fun x hx => hnolast x (by simp [hx]))
        hwf2 hbound2
    refine ⟨brF, ?_, by rw [hfires], hwfF, hboundF, ?_, ?_, ?_⟩
    · rw [runBatch, hstep]
      exact hrun
    · exact fun hh h => hmonoF hh (hmono2 hh h)
    · intro x hx
      rcases List.mem_cons.mp hx with hx2 | hx2
      · subst hx2
        exact hmonoF x.handle hres2
      · exact hresF x hx2
    · intro hh hh1 hh2
      exact habsF hh (habs2 hh hh1 (hh2 r (by simp))) (fun x hx => hh2 x (by simp [hx]))

/-- C7: For a batch whose misses sit in one factory queue in enqueue order (the
spec per-factory FIFO guarantee) behind the hit handles already resolved in the
pools, draining the whole queue fires the single batch completion exactly once:
the recorded fire trace is exactly [true], the boolean stating that at the
moment of the firing every batch handle (hits and misses alike) resolved to a
live pool entry; and draining any proper prefix (any run that has not yet
materialized the last-enqueued request) fires nothing at all. -/
theorem C7_batch_completion (factories : List (UClassRef × Nat))
    (st0 : PoolManagerState) (n0 : Nat)
    (init : List FSpawnRequest) (last : FSpawnRequest)
    (hitHs : List FPoolObjectHandle)
    (hval : ∀ r ∈ init ++ [last], r.handle.isValid = true)
    (hffc : ∀ r ∈ init ++ [last],
        (findPoolFactoryChecked factories r.handle.objectClass).isSome = true)
    (hnd : ((init ++ [last]).map (fun r => r.handle.hash)).Nodup)
    (habs : ∀ r ∈ init ++ [last], hashAbsentB st0.pools r.handle = true)
    (hwf : poolsWF st0.pools = true)
    (hbound : objBoundB st0.pools n0 = true)
    (hhits : ∀ hh ∈ hitHs, (findPoolObjectByHandle st0.pools hh).isValid = true) :
    (∃ brF, runBatch factories last.handle
        (hitHs ++ (init ++ [last]).map (fun r => r.handle)) (init ++ [last])
        ⟨st0, n0, []⟩ = some brF
      ∧ brF.fires = [true])
    ∧ (∀ pre suf, init = pre ++ suf →
        ∃ brP, runBatch factories last.handle
            (hitHs ++ (init ++ [last]).map (fun r => r.handle)) pre
            ⟨st0, n0, []⟩ = some brP
          ∧ brP.fires = []) := by
  rw [List.map_append] at hnd
  obtain ⟨hndi, -, hdisj⟩ := List.nodup_append.mp hnd
  have hne_init_last : ∀ r ∈ init, (r.handle.hash == last.handle.hash) = false := by
    intro r hr
    have h1 : r.handle.hash ∈ init.map (fun x => x.handle.hash) :=
      List.mem_map_of_mem _ hr
    simp
    intro hcontra
    exact hdisj h1 (by simp [hcontra])
  have hmeml : last ∈ init ++ [last] := by simp
  obtain ⟨brI, hrunI, hfiresI, hwfI, hboundI, hmonoI, hresI, habsI⟩ :=
    runBatch_nolast factories last.handle
      (hitHs ++ (init ++ [last]).map (fun r => r.handle)) init ⟨st0, n0, []⟩
      (fun r hr => hval r (by simp [hr]))
      (fun r hr => hffc r (by simp [hr]))
      (fun r hr => habs r (by simp [hr]))
      hndi hne_init_last hwf hbound
  have habsl : hashAbsentB brI.st.pools last.handle = true := by
    refine habsI last.handle (habs last hmeml) ?_
    intro r hr
    have := hne_init_last r hr
    simp at this ⊢
    exact fun hcontra => this hcontra.symm
  obtain ⟨st2, hstepL, hq2, hwf2, hbound2, hmono2, hres2, habs2⟩ :=
    stepBatch_fresh factories last.handle
      (hitHs ++ (init ++ [last]).map (fun r => r.handle)) brI last
      (hval last hmeml) (hffc last hmeml) hwfI hboundI habsl
  have hstepL2 : stepBatch factories last.handle
      (hitHs ++ (init ++ [last]).map (fun r => r.handle)) brI last =
      some ⟨st2, brI.nextObj + 1,
        [(hitHs ++ (init ++ [last]).map (fun r => r.handle)).all
          (fun hh => (findPoolObjectByHandle st2.pools hh).isValid)]⟩ := by
    rw [hstepL, hfiresI]
    simp
  have hall : (hitHs ++ (init ++ [last]).map (fun r => r.handle)).all
      (fun hh => (findPoolObjectByHandle st2.pools hh).isValid) = true := by
    rw [List.all_eq_true]
    intro hh hmem
    rcases List.mem_append.mp hmem with hmem | hmem
    · exact hmono2 hh (hmonoI hh (hhits hh hmem))
    · obtain ⟨r, hr, hrh⟩ := List.mem_map.mp hmem
      subst hrh
      rcases List.mem_append.mp hr with hr2 | hr2
      · exact hmono2 r.handle (hresI r hr2)
      · rcases List.mem_singleton.mp hr2 with rfl
        exact hres2
  refine ⟨⟨⟨st2, brI.nextObj + 1,
      [(hitHs ++ (init ++ [last]).map (fun r => r.handle)).all
        (fun hh => (findPoolObjectByHandle st2.pools hh).isValid)]⟩, ?_, ?_⟩, ?_⟩
  · simp only [runBatch_append, hrunI, runBatch, hstepL2]
  · rw [hall]
  · intro pre suf hsplit
    have hpresub : pre.Sublist init := by
      rw [hsplit]
      exact List.sublist_append_left pre suf
    have hndpre : (pre.map (fun r => r.handle.hash)).Nodup :=
      List.Nodup.sublist (List.Sublist.map _ hpresub) hndi
    have hprein : ∀ r ∈ pre, r ∈ init := fun r hr => hpresub.subset hr
    obtain ⟨brP, hrunP, hfiresP, -, -, -, -, -⟩ :=
      runBatch_nolast factories last.handle
        (hitHs ++ (init ++ [last]).map (fun r => r.handle)) pre ⟨st0, n0, []⟩
        (fun r hr => hval r (by simp [hprein r hr]))
        (fun r hr => hffc r (by simp [hprein r hr]))
        (fun r hr => habs r (by simp [hprein r hr]))
        hndpre
        (fun r hr => hne_init_last r (hprein r hr))
        hwf hbound
    exact ⟨brP, hrunP, hfiresP⟩

/-- Witness for C7: a batch of one pool hit (handle hash 9) and two queued
misses of different classes (hashes 11 and 12, the second class pooled lazily);
the completion fires exactly once, with every batch handle resolved. -/
theorem C7_batch_completion_witness :
    ∃ brF, runBatch [([4], 1), ([6], 2)]
        (⟨[6], 12⟩ : FPoolObjectHandle)
        (([⟨[4], 9⟩] : List FPoolObjectHandle) ++
          (([⟨0, ⟨[4], 11⟩, ESpawnRequestPriority.Normal⟩] ++
            [⟨0, ⟨[6], 12⟩, ESpawnRequestPriority.Normal⟩] : List FSpawnRequest)).map
            (fun r => r.handle))
        (([⟨0, ⟨[4], 11⟩, ESpawnRequestPriority.Normal⟩] ++
          [⟨0, ⟨[6], 12⟩, ESpawnRequestPriority.Normal⟩] : List FSpawnRequest))
        ⟨⟨[⟨[4], some 1, [⟨true, some 2, ⟨[4], 9⟩⟩]⟩], []⟩, 5, []⟩ = some brF
      ∧ brF.fires = [true] :=
  (C7_batch_completion [([4], 1), ([6], 2)]
    ⟨[⟨[4], some 1, [⟨true, some 2, ⟨[4], 9⟩⟩]⟩], []⟩ 5
    [⟨0, ⟨[4], 11⟩, ESpawnRequestPriority.Normal⟩]
    ⟨0, ⟨[6], 12⟩, ESpawnRequestPriority.Normal⟩
    [⟨[4], 9⟩]
    (by decide) (by decide) (by decide) (by decide) (by decide) (by decide)
    (by decide)).1
